import Mathlib

/-!
# Verification of the loggie-defense-deck intake core

Shallow embedding of the ingestion validation/dedup pipeline
(`functions/api/intake.ts`), the admin workflow endpoints
(fetch-by-id, list, note, mark-processed, unprocess) and the shared
audit logger (`_shared/admin-auth.ts`), together with proofs of the
spec claims about them.

JavaScript strings are modelled by Lean `String`; `TextEncoder` byte
length is UTF-8 byte length; `String.prototype.slice` counts UTF-16
code units.  The D1/SQLite store is modelled as an explicit list of
rows, a unique-constraint failure being reported — as in the code —
through an error message string.  WebCrypto (HMAC-SHA256, SHA-256) and
the WHATWG `URL` parser are platform primitives, abstracted as a
`Platform` record of pure functions.
-/

/-- JSON values as produced by `JSON.parse` (numbers restricted to
integers; no claim touches numeric payloads). -/
inductive JVal where
  | null : JVal
  | bool (b : Bool) : JVal
  | num (n : Int) : JVal
  | str (s : String) : JVal
  | arr (xs : List JVal) : JVal
  | obj (fields : List (String × JVal)) : JVal
deriving Repr, BEq

/-- UTF-8 byte length of a string: what `new TextEncoder().encode(s).byteLength`
returns, and what SQLite counts for a TEXT value. -/
def utf8Len (s : String) : Nat :=
  s.data.foldl (fun n c => n + c.utf8Size) 0

/-- Number of UTF-16 code units a character occupies in a JavaScript string. -/
def utf16Size (c : Char) : Nat :=
  if c.toNat < 0x10000 then 1 else 2

/-- `s.slice(0, n)` in JavaScript: keeps the first `n` UTF-16 code units.
(When an astral-plane character straddles the boundary JavaScript keeps a
lone surrogate half; that half is dropped here, the only representable
approximation — no claim's input hits this case.) -/
def jsSliceUnits (n : Nat) : List Char → List Char
  | [] => []
  | c :: cs =>
      if utf16Size c ≤ n then c :: jsSliceUnits (n - utf16Size c) cs
      else []

/-- `s.slice(0, n)` on strings. -/
def jsSlice (s : String) (n : Nat) : String :=
  String.mk (jsSliceUnits n s.data)

/-- `s === ""` as a computation on the character list (kernel-reducible
counterpart of `String.isEmpty`). -/
def strEmpty (s : String) : Bool :=
  s.data.isEmpty

/-- `s.toLowerCase()` (ASCII case mapping suffices for every string the
core lowercases: hex ids and operator e-mail addresses). -/
def jsToLower (s : String) : String :=
  String.mk (s.data.map Char.toLower)

/-- `s.trim()`. -/
def jsTrim (s : String) : String :=
  String.mk (((s.data.dropWhile Char.isWhitespace).reverse.dropWhile Char.isWhitespace).reverse)

/-- Does `n` occur as a contiguous run inside the character list? -/
def containsSub (n : List Char) : List Char → Bool
  | [] => n.isEmpty
  | c :: cs => List.isPrefixOf n (c :: cs) || containsSub n cs

/-- `haystack.includes(needle)` in JavaScript (substring containment). -/
def jsIncludes (haystack needle : String) : Bool :=
  containsSub needle.data haystack.data

/-- JavaScript truthiness of a nullable string: `null` and `""` are falsy. -/
def strFalsy (o : Option String) : Bool :=
  strEmpty (o.getD "")

/-- Splitter for `s.split(c)`, on character lists. -/
def splitCharList (c : Char) : List Char → List (List Char)
  | [] => [[]]
  | x :: xs =>
      if x = c then [] :: splitCharList c xs
      else
        match splitCharList c xs with
        | [] => [[x]]
        | g :: gs => (x :: g) :: gs

/-- `s.split(sep)` for a one-character separator. -/
def splitOnChar (c : Char) (s : String) : List String :=
  (splitCharList c s.data).map String.mk

/-- Value of the longest leading digit run, accumulator style. -/
def digitsValAux : Nat → List Char → Nat
  | acc, [] => acc
  | acc, c :: cs =>
      if c.isDigit then digitsValAux (acc * 10 + (c.toNat - '0'.toNat)) cs
      else acc

/-- `parseInt(s, 10)` in JavaScript: skip leading whitespace, optional
sign, then the longest digit prefix; `none` models `NaN`. -/
def parseIntJS (s : String) : Option Int :=
  let cs := s.data.dropWhile Char.isWhitespace
  match cs with
  | '-' :: rest =>
      if rest.head?.any Char.isDigit then some (-(digitsValAux 0 rest : Int)) else none
  | '+' :: rest =>
      if rest.head?.any Char.isDigit then some (digitsValAux 0 rest : Int) else none
  | _ =>
      if cs.head?.any Char.isDigit then some (digitsValAux 0 cs : Int) else none

/-- JSON string escaping as performed by `JSON.stringify`. -/
def jsonQuoteChar (c : Char) : String :=
  if c = '"' then "\\\""
  else if c = '\\' then "\\\\"
  else if c = '\n' then "\\n"
  else if c = '\r' then "\\r"
  else if c = '\t' then "\\t"
  else if c.toNat < 0x20 then "\\u00" ++ String.mk [Nat.digitChar (c.toNat / 16), Nat.digitChar (c.toNat % 16)]
  else String.mk [c]

/-- `JSON.stringify` on a string value. -/
def jsonQuote (s : String) : String :=
  "\"" ++ String.join (s.data.map jsonQuoteChar) ++ "\""

/-- `JSON.stringify` on a JSON value (object key order preserved, as in V8). -/
def jsonStringify : JVal → String
  | .null => "null"
  | .bool true => "true"
  | .bool false => "false"
  | .num n => toString n
  | .str s => jsonQuote s
  | .arr xs => "[" ++ String.intercalate "," (xs.attach.map fun x => jsonStringify x.1) ++ "]"
  | .obj fs => "\x7b" ++ String.intercalate ","
      (fs.attach.map fun f => jsonQuote f.1.1 ++ ":" ++ jsonStringify f.1.2) ++ "\x7d"
decreasing_by
  · have h := List.sizeOf_lt_of_mem x.2
    simp only [JVal.arr.sizeOf_spec]
    omega
  · obtain ⟨⟨k, v⟩, hf⟩ := f
    have h := List.sizeOf_lt_of_mem hf
    simp only [JVal.obj.sizeOf_spec, Prod.mk.sizeOf_spec] at h ⊢
    omega

/-- Platform primitives the worker calls but does not implement:
WebCrypto digests (already hex-encoded, as the code immediately hex-encodes
every digest with `bytesToHex`) and the WHATWG `URL` parser, which on
success exposes `origin` and `pathname`. -/
structure Platform where
  /-- `bytesToHex(HMAC-SHA256(secret, message))`. -/
  hmacHex : (secret : String) → (message : String) → String
  /-- `bytesToHex(SHA-256(data))`. -/
  sha256Hex : String → String
  /-- `new URL(s)`: `some (origin, pathname)` on success, `none` when the
  constructor throws. -/
  parseURL : String → Option (String × String)


/-- Bindings of `functions/api/intake.ts` (`interface Env`); every
variable is an optional string. -/
structure IntakeEnv where
  allowedOrigins : Option String := none
  intakeIpSalt : Option String := none
  intakeHmacSecret : Option String := none
  maxBodyBytes : Option String := none
  allowedVersions : Option String := none
  notifyWebhookUrl : Option String := none
deriving Repr, DecidableEq

/-- The parts of an incoming `POST /api/intake` request the handler
reads.  `bodyByteLen` is the true decoded byte length of the body
(`request.arrayBuffer().byteLength`); `bodyJson` is the result of
decoding and `JSON.parse` (`none` = parse failure); `contentLength` is
the client-supplied `Content-Length` header, which the handler never
consults. -/
structure IntakeReq where
  method : String := "POST"
  contentType : Option String := some "application/json"
  origin : Option String := none
  hmacHeader : Option String := none
  contentLength : Option String := none
  cfConnectingIP : Option String := none
  userAgent : Option String := none
  referer : Option String := none
  bodyByteLen : Nat := 0
  bodyJson : Option JVal := none

/-- A row of the `intake_requests` table (schema of migrations 0001/0002). -/
structure Row where
  id : String
  v : String
  encryptedJson : String
  receivedAt : String
  ipHash : Option String := none
  ua : Option String := none
  ref : Option String := none
  status : String := "new"
  processedAt : Option String := none
  note : Option String := none
  viewedAt : Option String := none
deriving Repr, DecidableEq

/-- A row of the append-only `intake_events` audit table (`at_` models
the `at` column, `at` being reserved in Lean). -/
structure Event where
  intakeId : String
  event : String
  actor : String
  at_ : String
  meta : Option String := none
deriving Repr, DecidableEq

/-- The D1 database: the two tables the core touches. -/
structure DBState where
  requests : List Row := []
  events : List Event := []
deriving Repr, DecidableEq

-- ═══════════════════════ CORS (intake.ts lines 40-75) ═══════════════════════

/-- `getAllowedOrigins`: split the configured list on commas, trim,
drop empties; unset or empty configuration gives the empty set. -/
def getAllowedOrigins (env : IntakeEnv) : List String :=
  if strFalsy env.allowedOrigins then []
  else (splitOnChar ',' (env.allowedOrigins.getD "")).map jsTrim |>.filter (fun o => !strEmpty o)

/-- `isOriginAllowed`: exact-match membership only, or a literal `"*"` entry. -/
def isOriginAllowed (origin : Option String) (env : IntakeEnv) : Bool :=
  if strFalsy origin then false
  else
    let allowed := getAllowedOrigins env
    allowed.contains (origin.getD "") || allowed.contains "*"

/-- Headers a response can carry in this model. -/
structure RespHeaders where
  contentType : Option String := none
  vary : Option String := none
  acao : Option String := none
  allowMethods : Option String := none
  allowHeaders : Option String := none
  maxAge : Option String := none
  cacheControl : Option String := none
deriving Repr, DecidableEq

/-- `corsHeaders`: always `Vary: Origin`; reflect the request origin
exactly when present and allowed. -/
def corsHeaders (origin : Option String) (env : IntakeEnv) : RespHeaders :=
  { vary := some "Origin"
    acao := if !(strFalsy origin) && isOriginAllowed origin env then origin else none }

/-- An HTTP response: status, optional JSON body, headers. -/
structure Resp where
  status : Nat
  body : Option JVal := none
  headers : RespHeaders := {}
deriving Repr

/-- `handleOptions`: CORS preflight, `204` with advertised methods/headers. -/
def handleOptions (origin : Option String) (env : IntakeEnv) : Resp :=
  { status := 204
    body := none
    headers := { corsHeaders origin env with
                   allowMethods := some "POST, OPTIONS"
                   allowHeaders := some "Content-Type, X-Intake-HMAC"
                   maxAge := some "86400" } }

/-- `jsonResponse`. -/
def jsonResponse (data : JVal) (status : Nat) (origin : Option String) (env : IntakeEnv) : Resp :=
  { status
    body := some data
    headers := { corsHeaders origin env with contentType := some "application/json" } }

/-- `errorResponse`: `jsonResponse({ok:false, error}, ...)`. -/
def errorResponse (error : String) (status : Nat) (origin : Option String) (env : IntakeEnv) : Resp :=
  jsonResponse (.obj [("ok", .bool false), ("error", .str error)]) status origin env

-- ══════════════════ crypto helpers (intake.ts lines 87-123) ══════════════════

/-- `hashIP`: salted SHA-256 of the client IP, `null` unless both IP and
salt are present (and truthy). -/
def hashIP (plat : Platform) (ip : Option String) (salt : Option String) : Option String :=
  if strFalsy ip || strFalsy salt then none
  else some (plat.sha256Hex ((salt.getD "") ++ ":" ++ (ip.getD "")))

/-- The comparison loop of `verifyHMAC`: length check first, then a
bitwise-XOR accumulation over corresponding UTF-16 code units (the
inputs are ASCII hex, where code units coincide with characters),
with no short-circuit. -/
def ctEq (expected provided : String) : Bool :=
  if expected.length ≠ provided.length then false
  else ((expected.data.zip provided.data).foldl
          (fun acc p => acc ||| (p.1.toNat ^^^ p.2.toNat)) 0) == 0

/-- `verifyHMAC`: hex HMAC-SHA256 of `id + "." + encryptedJson` under
`secret`, compared in constant time against the provided signature. -/
def verifyHMAC (plat : Platform) (secret id encryptedJson providedHmac : String) : Bool :=
  ctEq (plat.hmacHex secret (id ++ "." ++ encryptedJson)) providedHmac

-- ═══════════════ metadata sanitization (intake.ts lines 133-142) ═════════════

/-- `stripRefQuery`: `new URL(ref).origin + pathname`, falling back to
truncation at the first `?` or `#` when the URL constructor throws. -/
def stripRefQuery (plat : Platform) (ref : String) : String :=
  match plat.parseURL ref with
  | some (origin, pathname) => origin ++ pathname
  | none =>
      match ref.data.findIdx? (fun c => c = '?' || c = '#') with
      | some cut => String.mk (ref.data.take cut)
      | none => ref

-- ════════════════════ validation (intake.ts lines 148-206) ═══════════════════

/-- `getAllowedVersions`: configured comma-separated list (trimmed,
empties dropped), defaulting to `["loggie.intake.v1"]`. -/
def getAllowedVersions (env : IntakeEnv) : List String :=
  if strFalsy env.allowedVersions then ["loggie.intake.v1"]
  else (splitOnChar ',' (env.allowedVersions.getD "")).map jsTrim |>.filter (fun v => !strEmpty v)

/-- `ID_HEX_REGEX.test`: exactly 64 characters from `[a-f0-9]`. -/
def isHex64 (s : String) : Bool :=
  s.length == 64 && s.data.all (fun c => c.isDigit || ('a' ≤ c && c ≤ 'f'))

/-- The canonical envelope produced by validation. -/
structure IntakeEnvelope where
  v : String
  id : String
  encrypted : JVal
deriving Repr

/-- Property lookup on a parsed JSON value: `JSON.parse` keeps the last
duplicate key, and arrays are objects whose named properties are undefined. -/
def jsProp : JVal → String → Option JVal
  | .obj fs, k => fs.reverse.lookup k
  | _, _ => none

/-- `validateEnvelope` (intake.ts lines 157-206), translated clause by
clause in source order. -/
def validateEnvelope (body : JVal) (env : IntakeEnv) : Except String IntakeEnvelope :=
  -- `!body || typeof body !== "object"`
  match body with
  | .obj _ | .arr _ =>
    -- Required fields
    match jsProp body "v" with
    | some (.str v) =>
      if strEmpty v then .error "Missing or invalid 'v' field"
      else
        match jsProp body "id" with
        | some (.str id) =>
          if strEmpty id then .error "Missing or invalid 'id' field"
          else
            match jsProp body "encrypted" with
            | none | some .null => .error "Missing 'encrypted' field"
            | some encrypted =>
              -- Version check
              if !(getAllowedVersions env).contains v then .error "Unsupported version"
              else
                -- Normalize ID to lowercase before validation
                let normalizedId := jsToLower id
                if !isHex64 normalizedId then .error "Invalid 'id' format"
                else
                  -- Encrypted payload - accept string or object
                  match encrypted with
                  | .bool _ | .num _ => .error "Invalid 'encrypted' field type"
                  | _ => .ok { v := v, id := normalizedId, encrypted := encrypted }
        | _ => .error "Missing or invalid 'id' field"
    | _ => .error "Missing or invalid 'v' field"
  | _ => .error "Invalid request body"

-- ════════════════════ main handler (intake.ts lines 272-429) ═════════════════

/-- `parseInt(env.MAX_BODY_BYTES || "", 10) || DEFAULT_MAX_BODY_BYTES`:
`NaN` and `0` are falsy, so both fall back to the 65536 default. -/
def intakeMaxBytes (env : IntakeEnv) : Int :=
  match parseIntJS (env.maxBodyBytes.getD "") with
  | none => 65536
  | some 0 => 65536
  | some n => n

/-- Response body `{ok:true, id, status}`. -/
def okBody (id status : String) : JVal :=
  .obj [("ok", .bool true), ("id", .str id), ("status", .str status)]

/-- `request.headers.get("User-Agent")?.slice(0, MAX_UA_BYTES) || null`. -/
def uaOf (req : IntakeReq) : Option String :=
  match req.userAgent with
  | none => none
  | some u =>
      let s := jsSlice u 512
      if strEmpty s then none else some s

/-- `rawRef ? stripRefQuery(rawRef).slice(0, MAX_REF_BYTES) : null`. -/
def refOf (plat : Platform) (req : IntakeReq) : Option String :=
  match req.referer with
  | none => none
  | some r => if strEmpty r then none else some (jsSlice (stripRefQuery plat r) 1024)

/-- The row bound into `INSERT INTO intake_requests` (remaining columns
take their schema defaults). -/
def newRowOf (plat : Platform) (env : IntakeEnv) (now : String) (req : IntakeReq)
    (envl : IntakeEnvelope) (encryptedJson : String) : Row :=
  { id := envl.id, v := envl.v, encryptedJson := encryptedJson, receivedAt := now,
    ipHash := hashIP plat req.cfConnectingIP env.intakeIpSalt,
    ua := uaOf req, ref := refOf plat req }

/-- The insert step (intake.ts lines 372-428): privacy-normalize the
metadata, attempt the single insert, and map a unique-constraint
failure — detected, as in the code, by substring inspection of the
thrown message — to the idempotent duplicate response. -/
def insertStage (plat : Platform) (env : IntakeEnv) (now : String) (req : IntakeReq)
    (db : List Row) (origin : Option String) (envl : IntakeEnvelope)
    (encryptedJson : String) : Resp × List Row :=
  if db.any (fun r => r.id == envl.id) then
    -- D1/SQLite rejects the second insert on the primary key:
    let message := "UNIQUE constraint failed: intake_requests.id"
    if jsIncludes message "UNIQUE constraint failed" || jsIncludes message "SQLITE_CONSTRAINT" then
      (jsonResponse (okBody envl.id "duplicate") 200 origin env, db)
    else
      (errorResponse "Database error" 500 origin env, db)
  else
    (jsonResponse (okBody envl.id "created") 201 origin env,
     db ++ [newRowOf plat env now req envl encryptedJson])

/-- The HMAC gate (intake.ts lines 345-370). -/
def hmacStage (plat : Platform) (env : IntakeEnv) (now : String) (req : IntakeReq)
    (db : List Row) (origin : Option String) (envl : IntakeEnvelope)
    (encryptedJson : String) : Resp × List Row :=
  if !(strFalsy env.intakeHmacSecret) then
    match envl.encrypted with
    | .str encStr =>
        if strFalsy req.hmacHeader then
          (errorResponse "Missing X-Intake-HMAC header" 401 origin env, db)
        else if !(verifyHMAC plat (env.intakeHmacSecret.getD "") envl.id encStr
                    (jsToLower (req.hmacHeader.getD ""))) then
          (errorResponse "Invalid HMAC" 401 origin env, db)
        else insertStage plat env now req db origin envl encryptedJson
    | _ => (errorResponse "When HMAC is enabled, 'encrypted' must be a string" 400 origin env, db)
  else insertStage plat env now req db origin envl encryptedJson

/-- The canonical serialized form of the `encrypted` payload
(intake.ts lines 333-336): verbatim when a string, `JSON.stringify`
otherwise. -/
def encJsonOf (envl : IntakeEnvelope) : String :=
  match envl.encrypted with
  | .str s => s
  | e => jsonStringify e

/-- Post-validation step (intake.ts lines 329-343): serialize the
encrypted payload once, re-check its byte length against the cap
before any HMAC work. -/
def envelopeStage (plat : Platform) (env : IntakeEnv) (now : String) (req : IntakeReq)
    (db : List Row) (origin : Option String) (maxBytes : Int)
    (envl : IntakeEnvelope) : Resp × List Row :=
  if (utf8Len (encJsonOf envl) : Int) > maxBytes then
    (errorResponse "Encrypted payload too large" 413 origin env, db)
  else hmacStage plat env now req db origin envl (encJsonOf envl)

/-- `onRequest` of `functions/api/intake.ts`: the full ingestion pipeline.
Returns the response and the resulting `intake_requests` table. -/
def onRequestIntake (plat : Platform) (env : IntakeEnv) (now : String) (req : IntakeReq)
    (db : List Row) : Resp × List Row :=
  let origin := req.origin
  if req.method == "OPTIONS" then (handleOptions origin env, db)
  else if req.method != "POST" then (errorResponse "Method not allowed" 405 origin env, db)
  else if !(jsIncludes (req.contentType.getD "") "application/json") then
    (errorResponse "Content-Type must be application/json" 415 origin env, db)
  else
    let maxBytes := intakeMaxBytes env
    if (req.bodyByteLen : Int) > maxBytes then
      (errorResponse ("Request body too large (max " ++ toString maxBytes ++ " bytes)") 413
        origin env, db)
    else
      match req.bodyJson with
      | none => (errorResponse "Invalid JSON" 400 origin env, db)
      | some body =>
          match validateEnvelope body env with
          | .error e => (errorResponse e 400 origin env, db)
          | .ok envl => envelopeStage plat env now req db origin maxBytes envl

-- ═══════════════ admin shared utilities (_shared/admin-auth.ts) ══════════════

/-- `adminJson`: JSON response with `Cache-Control: no-store`. -/
def adminJson (data : JVal) (status : Nat := 200) : Resp :=
  { status
    body := some data
    headers := { cacheControl := some "no-store", contentType := some "application/json" } }

/-- Body `{ok:false, error}` used by the admin endpoints. -/
def errObj (error : String) : JVal :=
  .obj [("ok", .bool false), ("error", .str error)]

/-- `logEvent`: append one audit row (`at` defaulting to the current time). -/
def logEvent (events : List Event) (intakeId eventTag actor : String)
    (meta : Option String) (now : String) : List Event :=
  events ++ [{ intakeId := intakeId, event := eventTag, actor := actor, at_ := now, meta := meta }]

/-- `(context.data.adminEmail as string) || "unknown"`. -/
def effActor (actorOpt : Option String) : String :=
  if strFalsy actorOpt then "unknown" else actorOpt.getD ""

/-- `UPDATE intake_requests SET ... WHERE id = ?`: the updated table and
`result.meta.changes` (the number of matched rows). -/
def updateWhereId (f : Row → Row) (id : String) (rows : List Row) : List Row × Nat :=
  (rows.map (fun r => if r.id == id then f r else r),
   (rows.filter (fun r => r.id == id)).length)

/-- `Option String` column value as a JSON field. -/
def optStr : Option String → JVal
  | none => .null
  | some s => .str s

-- ════════════ GET /api/admin/intake/:id (fetch + mark-viewed) ═══════════════

/-- The `item` object returned by fetch-by-id (built from the row as
read, before the viewed-at update). -/
def fetchItem (r : Row) : JVal :=
  .obj [("id", .str r.id), ("v", .str r.v), ("received_at", .str r.receivedAt),
        ("encrypted_json", .str r.encryptedJson), ("ip_hash", optStr r.ipHash),
        ("ua", optStr r.ua), ("ref", optStr r.ref),
        ("status", .str (if strEmpty r.status then "new" else r.status)),
        ("processed_at", optStr r.processedAt), ("note", optStr r.note),
        ("viewed_at", optStr r.viewedAt)]

/-- `onRequestGet` of `/api/admin/intake/:id`: fetch one submission,
setting `viewed_at` (and logging a `viewed` event) on first view. -/
def adminFetch (idParam : Option String) (actorOpt : Option String) (now : String)
    (st : DBState) : Resp × DBState :=
  let id := jsToLower (idParam.getD "")
  if !isHex64 id then (adminJson (errObj "Invalid ID format") 400, st)
  else
    match st.requests.find? (fun r => r.id == id) with
    | none => (adminJson (errObj "Not found") 404, st)
    | some r =>
        let st' :=
          if strFalsy r.viewedAt then
            { requests := (updateWhereId (fun q => { q with viewedAt := some now }) id st.requests).1
              events := logEvent st.events id "viewed" (effActor actorOpt) none now }
          else st
        (adminJson (.obj [("ok", .bool true), ("item", fetchItem r)]) 200, st')

-- ═══════════════ GET /api/admin/intake (cursor-paginated list) ═══════════════

/-- Effective page size:
`Math.min(Math.max(parseInt(limit || "50", 10) || 50, 1), 200)`. -/
def effLimit (limitParam : Option String) : Int :=
  let s := if strFalsy limitParam then "50" else limitParam.getD ""
  let n : Int :=
    match parseIntJS s with
    | none => 50
    | some 0 => 50
    | some m => m
  min (max n 1) 200

/-- `WHERE (received_at < ? OR (received_at = ? AND id < ?))`: strictly
before the cursor pair under the `(received_at DESC, id DESC)` order
(SQLite BINARY collation modelled by the lexicographic string order). -/
def cursorFilter (cAt cId : String) (r : Row) : Bool :=
  r.receivedAt < cAt || (r.receivedAt == cAt && r.id < cId)

/-- `(received_at, id)` sort key of a row. -/
def rowKey (r : Row) : String × String := (r.receivedAt, r.id)

/-- Strict lexicographic order on `(received_at, id)` pairs. -/
def keyLtP (a b : String × String) : Bool :=
  a.1 < b.1 || (a.1 == b.1 && a.2 < b.2)

/-- Insert a row into a list sorted descending by `rowKey`. -/
def insertDesc (r : Row) : List Row → List Row
  | [] => [r]
  | x :: xs => if keyLtP (rowKey x) (rowKey r) then r :: x :: xs else x :: insertDesc r xs

/-- `ORDER BY received_at DESC, id DESC` (insertion sort). -/
def sortDesc (rows : List Row) : List Row := rows.foldr insertDesc []

/-- The list query: filter by cursor (when given), sort descending,
`LIMIT n`. -/
def listQueryRows (rows : List Row) (cursor : Option (String × String)) (n : Nat) : List Row :=
  let matching :=
    match cursor with
    | none => rows
    | some (cAt, cId) => rows.filter (cursorFilter cAt cId)
  (sortDesc matching).take n

/-- The pagination core of `onRequestGet` for `/api/admin/intake`:
parse the cursor, over-fetch `limit + 1` rows, trim and emit the next
cursor from the last *kept* row.  `Except` carries the 400 response for
a malformed cursor. -/
def adminListCore (limitParam cursorParam : Option String) (rows : List Row) :
    Except Resp (List Row × Option String) :=
  let limit := (effLimit limitParam).toNat
  let cursorPair : Except Resp (Option (String × String)) :=
    if strFalsy cursorParam then .ok none
    else
      match splitOnChar '|' (cursorParam.getD "") with
      | a :: b :: _ =>
          if strEmpty a || strEmpty b then .error (adminJson (errObj "Invalid cursor format") 400)
          else .ok (some (a, b))
      | _ => .error (adminJson (errObj "Invalid cursor format") 400)
  match cursorPair with
  | .error resp => .error resp
  | .ok cur =>
      let fetched := listQueryRows rows cur (limit + 1)
      if fetched.length > limit then
        let trimmed := fetched.take limit
        match trimmed.getLast? with
        | some last => .ok (trimmed, some (last.receivedAt ++ "|" ++ last.id))
        | none => .ok (trimmed, none)
      else .ok (fetched, none)

/-- The summary object per listed row (`length(encrypted_json)` is
SQLite's character count on TEXT). -/
def listItem (r : Row) : JVal :=
  .obj [("id", .str r.id), ("v", .str r.v), ("received_at", .str r.receivedAt),
        ("ciphertext_len", .num (r.encryptedJson.length : Int)),
        ("ip_hash", optStr r.ipHash), ("ua", optStr r.ua), ("ref", optStr r.ref),
        ("status", .str r.status), ("processed_at", optStr r.processedAt),
        ("note", optStr r.note)]

/-- `onRequestGet` of `/api/admin/intake`: the full list response. -/
def adminList (limitParam cursorParam : Option String) (st : DBState) : Resp :=
  match adminListCore limitParam cursorParam st.requests with
  | .error resp => resp
  | .ok (items, nextCursor) =>
      adminJson (.obj ([("ok", .bool true), ("items", .arr (items.map listItem))] ++
        match nextCursor with
        | some c => [("nextCursor", .str c)]
        | none => [])) 200

-- ════════════════ POST /api/admin/intake/:id/note ════════════════════════════

/-- `onRequestPost` of `/api/admin/intake/:id/note`. -/
def adminNote (idParam : Option String) (body : Option JVal) (actorOpt : Option String)
    (now : String) (st : DBState) : Resp × DBState :=
  let id := jsToLower (idParam.getD "")
  if !isHex64 id then (adminJson (errObj "Invalid ID format") 400, st)
  else
    match body with
    | none => (adminJson (errObj "Invalid JSON body") 400, st)
    | some b =>
        match jsProp b "note" with
        | some (.str note0) =>
            let note := jsSlice note0 4096
            let upd := updateWhereId (fun r => { r with note := some note }) id st.requests
            if upd.2 == 0 then (adminJson (errObj "Not found") 404, st)
            else
              (adminJson (.obj [("ok", .bool true)]) 200,
               { requests := upd.1
                 events := logEvent st.events id "note-updated" (effActor actorOpt) none now })
        | _ => (adminJson (errObj "note is required and must be a string") 400, st)

-- ═══════════ POST /api/admin/intake/:id/mark-processed ═══════════════════════

/-- `onRequestPost` of `/api/admin/intake/:id/mark-processed`.  A body
that failed to parse (`none`) is fine — the note is optional. -/
def adminMarkProcessed (idParam : Option String) (body : Option JVal)
    (actorOpt : Option String) (now : String) (st : DBState) : Resp × DBState :=
  let id := jsToLower (idParam.getD "")
  if !isHex64 id then (adminJson (errObj "Invalid ID format") 400, st)
  else
    let noteResult : Except Resp (Option String) :=
      match body with
      | none => .ok none
      | some b =>
          match jsProp b "note" with
          | none => .ok none
          | some (.str s) => .ok (some (jsSlice s 4096))
          | some _ => .error (adminJson (errObj "note must be a string") 400)
    match noteResult with
    | .error resp => (resp, st)
    | .ok note =>
        let upd := updateWhereId
          (fun r =>
            let r' := { r with status := "processed", processedAt := some now }
            match note with
            | some n => { r' with note := some n }
            | none => r')
          id st.requests
        if upd.2 == 0 then (adminJson (errObj "Not found") 404, st)
        else
          let meta : Option String :=
            match note with
            | some n =>
                if strEmpty n then none
                else some (jsonStringify (.obj [("note", .str n)]))
            | none => none
          (adminJson (.obj [("ok", .bool true)]) 200,
           { requests := upd.1
             events := logEvent st.events id "mark-processed" (effActor actorOpt) meta now })

-- ═══════════════ POST /api/admin/intake/:id/unprocess ════════════════════════

/-- `onRequestPost` of `/api/admin/intake/:id/unprocess`. -/
def adminUnprocess (idParam : Option String) (actorOpt : Option String) (now : String)
    (st : DBState) : Resp × DBState :=
  let id := jsToLower (idParam.getD "")
  if !isHex64 id then (adminJson (errObj "Invalid ID format") 400, st)
  else
    let upd := updateWhereId (fun r => { r with status := "new", processedAt := none })
      id st.requests
    if upd.2 == 0 then (adminJson (errObj "Not found") 404, st)
    else
      (adminJson (.obj [("ok", .bool true)]) 200,
       { requests := upd.1
         events := logEvent st.events id "unprocessed" (effActor actorOpt) none now })

-- ═══════════════════════ the operations of the core ══════════════════════════

/-- Every state-relevant operation of the core. -/
inductive CoreOp where
  | ingest (plat : Platform) (env : IntakeEnv) (now : String) (req : IntakeReq)
  | fetch (idParam : Option String) (actorOpt : Option String) (now : String)
  | listOp (limitParam cursorParam : Option String)
  | noteOp (idParam : Option String) (body : Option JVal) (actorOpt : Option String) (now : String)
  | markProc (idParam : Option String) (body : Option JVal) (actorOpt : Option String) (now : String)
  | unproc (idParam : Option String) (actorOpt : Option String) (now : String)

/-- Effect of one operation on the database. -/
def applyOp (op : CoreOp) (st : DBState) : DBState :=
  match op with
  | .ingest plat env now req =>
      { st with requests := (onRequestIntake plat env now req st.requests).2 }
  | .fetch i a n => (adminFetch i a n st).2
  | .listOp _ _ => st
  | .noteOp i b a n => (adminNote i b a n st).2
  | .markProc i b a n => (adminMarkProcessed i b a n st).2
  | .unproc i a n => (adminUnprocess i a n st).2

-- ═══════════════════════════ shared helper lemmas ════════════════════════════

theorem resp_ne_of_status {r1 r2 : Resp} (h : r1.status ≠ r2.status) : r1 ≠ r2 :=
  fun he => h (congrArg Resp.status he)

theorem errorResponse_error_eq {e1 e2 : String} {s1 s2 : Nat} {o1 o2 : Option String}
    {env1 env2 : IntakeEnv} (h : errorResponse e1 s1 o1 env1 = errorResponse e2 s2 o2 env2) :
    e1 = e2 := by
  have hb := congrArg Resp.body h
  simpa [errorResponse, jsonResponse] using hb

theorem ne_of_head_append {f pre : String} {c d : Char} (hf : f.data.head? = some c)
    (hpre : pre.data.head? = some d) (hcd : c ≠ d) (t : String) : f ≠ pre ++ t := by
  intro h
  apply hcd
  have := congrArg (fun s => s.data.head?) h
  simp only [String.data_append] at this
  rw [hf] at this
  cases hp : pre.data with
  | nil => rw [hp] at hpre; simp at hpre
  | cons x xs =>
      rw [hp] at hpre this
      simp only [List.cons_append, List.head?_cons, Option.some.injEq] at hpre this
      rw [this, hpre]

/-- Every response of a pipeline stage carries the `corsHeaders` of the
request origin. -/
def corsOk (origin : Option String) (env : IntakeEnv) (r : Resp) : Prop :=
  r.headers.vary = some "Origin" ∧ r.headers.acao = (corsHeaders origin env).acao

theorem corsOk_insertStage (plat : Platform) (env : IntakeEnv) (now : String)
    (req : IntakeReq) (db : List Row) (origin : Option String) (envl : IntakeEnvelope)
    (encJson : String) :
    corsOk origin env (insertStage plat env now req db origin envl encJson).1 := by
  unfold corsOk insertStage
  try dsimp only
  repeat' split
  all_goals exact ⟨rfl, rfl⟩

theorem corsOk_hmacStage (plat : Platform) (env : IntakeEnv) (now : String)
    (req : IntakeReq) (db : List Row) (origin : Option String) (envl : IntakeEnvelope)
    (encJson : String) :
    corsOk origin env (hmacStage plat env now req db origin envl encJson).1 := by
  unfold corsOk hmacStage
  try dsimp only
  repeat' split
  all_goals first
    | exact ⟨rfl, rfl⟩
    | exact corsOk_insertStage plat env now req db origin envl encJson

theorem corsOk_envelopeStage (plat : Platform) (env : IntakeEnv) (now : String)
    (req : IntakeReq) (db : List Row) (origin : Option String) (maxBytes : Int)
    (envl : IntakeEnvelope) :
    corsOk origin env (envelopeStage plat env now req db origin maxBytes envl).1 := by
  unfold corsOk envelopeStage
  try dsimp only
  repeat' split
  all_goals first
    | exact ⟨rfl, rfl⟩
    | apply corsOk_hmacStage

theorem corsOk_onRequestIntake (plat : Platform) (env : IntakeEnv) (now : String)
    (req : IntakeReq) (db : List Row) :
    corsOk req.origin env (onRequestIntake plat env now req db).1 := by
  unfold corsOk onRequestIntake
  try dsimp only
  repeat' split
  all_goals first
    | exact ⟨rfl, rfl⟩
    | apply corsOk_envelopeStage

theorem strEmpty_iff (s : String) : strEmpty s = true ↔ s = "" := by
  cases s with
  | mk l =>
      cases l with
      | nil => simp [strEmpty]
      | cons c cs =>
          simp only [strEmpty, List.isEmpty_cons]
          constructor
          · intro h; cases h
          · intro h
            cases congrArg String.data h

theorem strEmpty_false_iff (s : String) : strEmpty s = false ↔ s ≠ "" := by
  rw [Bool.eq_false_iff]
  exact not_congr (strEmpty_iff s)

theorem corsHeaders_acao_iff (origin : Option String) (env : IntakeEnv) (o : String) :
    (corsHeaders origin env).acao = some o ↔
      origin = some o ∧ o ≠ "" ∧ (o ∈ getAllowedOrigins env ∨ "*" ∈ getAllowedOrigins env) := by
  simp only [corsHeaders]
  constructor
  · intro h
    split at h
    case isTrue hc =>
      subst h
      simp only [Bool.and_eq_true, Bool.not_eq_true'] at hc
      obtain ⟨hf, ha⟩ := hc
      have ho : o ≠ "" := by
        rw [strFalsy, Option.getD] at hf
        exact (strEmpty_false_iff o).mp hf
      refine ⟨rfl, ho, ?_⟩
      unfold isOriginAllowed at ha
      rw [if_neg (by simp [hf])] at ha
      simpa using ha
    case isFalse => exact absurd h (by simp)
  · rintro ⟨rfl, ho, hmem⟩
    have hf : strFalsy (some o) = false := by
      rw [strFalsy, Option.getD]
      exact (strEmpty_false_iff o).mpr ho
    have hall : isOriginAllowed (some o) env = true := by
      unfold isOriginAllowed
      rw [if_neg (by simp [hf])]
      simpa using hmem
    rw [if_pos (by simp [hf, hall])]

-- ═══════════════════════════════ claim C7 ════════════════════════════════════

/-- C7: every ingestion response carries `Vary: Origin`, and carries
`Access-Control-Allow-Origin` set to exactly the request's `Origin`
header if and only if that header is present (and non-empty) and is an
exact-string member of the configured allowlist or the allowlist
contains the literal `"*"`; an absent `Origin` header yields no CORS
header. -/
theorem cors_exact_origin (plat : Platform) (env : IntakeEnv) (now : String)
    (req : IntakeReq) (db : List Row) (o : String) :
    (onRequestIntake plat env now req db).1.headers.vary = some "Origin" ∧
    ((onRequestIntake plat env now req db).1.headers.acao = some o ↔
      req.origin = some o ∧ o ≠ "" ∧
      (o ∈ getAllowedOrigins env ∨ "*" ∈ getAllowedOrigins env)) ∧
    (req.origin = none → (onRequestIntake plat env now req db).1.headers.acao = none) := by
  obtain ⟨hv, ha⟩ := corsOk_onRequestIntake plat env now req db
  refine ⟨hv, ?_, ?_⟩
  · rw [ha]
    exact corsHeaders_acao_iff req.origin env o
  · intro h
    rw [ha, h]
    simp [corsHeaders, strFalsy]

/-- Witness for C7 at a concrete allowlisted origin. -/
theorem cors_exact_origin_witness :
    (onRequestIntake ⟨fun _ _ => "", fun _ => "", fun _ => none⟩
        { allowedOrigins := some "https://allowed.example" } "t"
        { origin := some "https://allowed.example" } []).1.headers.acao =
      some "https://allowed.example" :=
  ((cors_exact_origin ⟨fun _ _ => "", fun _ => "", fun _ => none⟩
      { allowedOrigins := some "https://allowed.example" } "t"
      { origin := some "https://allowed.example" } [] "https://allowed.example").2.1).mpr
    ⟨rfl, by decide, Or.inl (by decide)⟩

-- ═══════════════════════════════ claim C6 ════════════════════════════════════

theorem envelopeStage_ne_sizeError (plat : Platform) (env : IntakeEnv) (now : String)
    (req : IntakeReq) (db : List Row) (origin : Option String) (maxBytes : Int)
    (envl : IntakeEnvelope) (t : String) (o2 : Option String) (env2 : IntakeEnv) :
    (envelopeStage plat env now req db origin maxBytes envl).1 ≠
      errorResponse ("Request body too large (max " ++ t) 413 o2 env2 := by
  unfold envelopeStage hmacStage insertStage
  try dsimp only
  repeat' split
  all_goals try dsimp only
  all_goals
    first
      | (apply resp_ne_of_status
         simp only [errorResponse, jsonResponse]
         decide)
      | exact fun h => absurd (errorResponse_error_eq h)
          (ne_of_head_append (c := 'E') (d := 'R') (by decide) (by decide) (by decide) t)

/-- C6: on a `POST` with a JSON content type, the body-size limit is
enforced on the true decoded byte length against the configured cap
(default 65536): a longer body is rejected with the `413` size error
and nothing is stored, a body of exactly the cap is never answered
with the size rejection, and the client-supplied `Content-Length`
header has no effect on the outcome. -/
theorem body_size_limit (plat : Platform) (env : IntakeEnv) (now : String)
    (req : IntakeReq) (db : List Row)
    (hm : req.method = "POST")
    (hct : jsIncludes (req.contentType.getD "") "application/json" = true) :
    ((req.bodyByteLen : Int) > intakeMaxBytes env →
      onRequestIntake plat env now req db =
        (errorResponse ("Request body too large (max " ++ toString (intakeMaxBytes env) ++ " bytes)")
          413 req.origin env, db)) ∧
    ((req.bodyByteLen : Int) = intakeMaxBytes env →
      (onRequestIntake plat env now req db).1 ≠
        errorResponse ("Request body too large (max " ++ toString (intakeMaxBytes env) ++ " bytes)")
          413 req.origin env) ∧
    (∀ cl : Option String,
      onRequestIntake plat env now { req with contentLength := cl } db =
        onRequestIntake plat env now req db) := by
  have hopt : (req.method == "OPTIONS") = false := by rw [hm]; rfl
  have hpost : (req.method != "POST") = false := by rw [hm]; rfl
  refine ⟨?_, ?_, ?_⟩
  · intro hgt
    unfold onRequestIntake
    dsimp only
    rw [if_neg (by rw [hopt]; exact Bool.false_ne_true),
        if_neg (by rw [hpost]; exact Bool.false_ne_true),
        if_neg (by rw [hct]; decide),
        if_pos hgt]
  · intro heq
    unfold onRequestIntake
    dsimp only
    rw [if_neg (by rw [hopt]; exact Bool.false_ne_true),
        if_neg (by rw [hpost]; exact Bool.false_ne_true),
        if_neg (by rw [hct]; decide),
        if_neg (by rw [heq]; exact lt_irrefl _)]
    rw [String.append_assoc]
    cases req.bodyJson with
    | none =>
        apply resp_ne_of_status
        simp only [errorResponse, jsonResponse]
        decide
    | some body =>
        cases hval : validateEnvelope body env with
        | error e =>
            dsimp only
            rw [hval]
            apply resp_ne_of_status
            simp only [errorResponse, jsonResponse]
            decide
        | ok envl =>
            dsimp only
            rw [hval]
            exact envelopeStage_ne_sizeError plat env now req db req.origin
              (intakeMaxBytes env) envl _ req.origin env
  · intro cl
    cases req
    rfl

/-- A trivial platform record for concrete evaluations. -/
def trivPlat : Platform :=
  { hmacHex := fun _ _ => "", sha256Hex := fun _ => "", parseURL := fun _ => none }

/-- Witness for C6: one byte over the default cap yields the 413. -/
theorem body_size_limit_witness :
    onRequestIntake trivPlat {} "t" { bodyByteLen := 65537 } [] =
      (errorResponse ("Request body too large (max " ++ toString (intakeMaxBytes {}) ++ " bytes)")
        413 none {}, []) :=
  (body_size_limit trivPlat {} "t" { bodyByteLen := 65537 } [] rfl (by decide)).1 (by decide)

-- ═══════════════════════════════ claim C3 ════════════════════════════════════

/-- C3 counterexample: a body whose version is outside the allowed set
*and* whose `encrypted` field is missing is rejected with the
missing-field message, not the version message, contradicting the
claimed validation order (version membership before `encrypted`
presence). -/
theorem validate_order_counterexample :
    validateEnvelope
        (.obj [("v", .str "evil.version"), ("id", .str (String.mk (List.replicate 64 'a')))]) {} =
      .error "Missing 'encrypted' field" ∧
    (getAllowedVersions {}).contains "evil.version" = false ∧
    validateEnvelope
        (.obj [("v", .str "evil.version"), ("id", .str (String.mk (List.replicate 64 'a')))]) {} ≠
      .error "Unsupported version" := by
  refine ⟨rfl, by decide, fun h => ?_⟩
  rw [show validateEnvelope
        (.obj [("v", .str "evil.version"), ("id", .str (String.mk (List.replicate 64 'a')))]) {} =
      .error "Missing 'encrypted' field" from rfl] at h
  exact absurd (Except.error.inj h) (by decide)

theorem strEmpty_empty : strEmpty "" = true := rfl

/-- C3 (amended): validation fails fast in the source order — (1) body
is an object, (2) `v` present as a non-empty string, (3) `id` present
as a non-empty string, (4) `encrypted` present, (5) `v` a member of the
allowed-version set, (6) lowercased `id` matches `^[a-f0-9]{64}$`,
(7) `encrypted` of string-or-object type — so all three presence
checks run before the version-membership check, and a body with a
disallowed version and missing `encrypted` is rejected for the missing
field. -/
theorem validate_fail_fast_order (env : IntakeEnv) (body : JVal)
    (fs : List (String × JVal)) (v id : String) (enc : JVal) :
    ((∀ gs, body ≠ .obj gs) → (∀ xs, body ≠ .arr xs) →
      validateEnvelope body env = .error "Invalid request body") ∧
    ((jsProp (.obj fs) "v" = none ∨ (∃ j, jsProp (.obj fs) "v" = some j ∧ ∀ s, j ≠ .str s) ∨
        jsProp (.obj fs) "v" = some (.str "")) →
      validateEnvelope (.obj fs) env = .error "Missing or invalid 'v' field") ∧
    (jsProp (.obj fs) "v" = some (.str v) → v ≠ "" →
      (jsProp (.obj fs) "id" = none ∨ (∃ j, jsProp (.obj fs) "id" = some j ∧ ∀ s, j ≠ .str s) ∨
        jsProp (.obj fs) "id" = some (.str "")) →
      validateEnvelope (.obj fs) env = .error "Missing or invalid 'id' field") ∧
    (jsProp (.obj fs) "v" = some (.str v) → v ≠ "" →
      jsProp (.obj fs) "id" = some (.str id) → id ≠ "" →
      (jsProp (.obj fs) "encrypted" = none ∨ jsProp (.obj fs) "encrypted" = some .null) →
      validateEnvelope (.obj fs) env = .error "Missing 'encrypted' field") ∧
    (jsProp (.obj fs) "v" = some (.str v) → v ≠ "" →
      jsProp (.obj fs) "id" = some (.str id) → id ≠ "" →
      jsProp (.obj fs) "encrypted" = some enc → enc ≠ .null →
      (getAllowedVersions env).contains v = false →
      validateEnvelope (.obj fs) env = .error "Unsupported version") ∧
    (jsProp (.obj fs) "v" = some (.str v) → v ≠ "" →
      jsProp (.obj fs) "id" = some (.str id) → id ≠ "" →
      jsProp (.obj fs) "encrypted" = some enc → enc ≠ .null →
      (getAllowedVersions env).contains v = true →
      isHex64 (jsToLower id) = false →
      validateEnvelope (.obj fs) env = .error "Invalid 'id' format") ∧
    (jsProp (.obj fs) "v" = some (.str v) → v ≠ "" →
      jsProp (.obj fs) "id" = some (.str id) → id ≠ "" →
      jsProp (.obj fs) "encrypted" = some enc →
      (getAllowedVersions env).contains v = true →
      isHex64 (jsToLower id) = true →
      ((∃ b, enc = .bool b) ∨ (∃ n, enc = .num n) →
        validateEnvelope (.obj fs) env = .error "Invalid 'encrypted' field type") ∧
      (enc ≠ .null → (∀ b, enc ≠ .bool b) → (∀ n, enc ≠ .num n) →
        validateEnvelope (.obj fs) env = .ok ⟨v, jsToLower id, enc⟩)) := by
  refine ⟨?_, ?_, ?_, ?_, ?_, ?_, ?_⟩
  · intro hno hna
    cases body with
    | obj gs => exact absurd rfl (hno gs)
    | arr xs => exact absurd rfl (hna xs)
    | null => rfl
    | bool b => rfl
    | num n => rfl
    | str s => rfl
  · intro hbad
    rcases hbad with h | ⟨j, hj, hns⟩ | h
    · simp [validateEnvelope, h]
    · cases j with
      | str s => exact absurd rfl (hns s)
      | null => simp [validateEnvelope, hj]
      | bool b => simp [validateEnvelope, hj]
      | num n => simp [validateEnvelope, hj]
      | arr xs => simp [validateEnvelope, hj]
      | obj gs => simp [validateEnvelope, hj]
    · simp [validateEnvelope, h, strEmpty_empty]
  · intro hv hvne hbad
    have hvf : strEmpty v = false := (strEmpty_false_iff v).mpr hvne
    rcases hbad with h | ⟨j, hj, hns⟩ | h
    · simp [validateEnvelope, hv, hvf, h]
    · cases j with
      | str s => exact absurd rfl (hns s)
      | null => simp [validateEnvelope, hv, hvf, hj]
      | bool b => simp [validateEnvelope, hv, hvf, hj]
      | num n => simp [validateEnvelope, hv, hvf, hj]
      | arr xs => simp [validateEnvelope, hv, hvf, hj]
      | obj gs => simp [validateEnvelope, hv, hvf, hj]
    · simp [validateEnvelope, hv, hvf, h, strEmpty_empty]
  · intro hv hvne hid hidne hbad
    have hvf : strEmpty v = false := (strEmpty_false_iff v).mpr hvne
    have hif : strEmpty id = false := (strEmpty_false_iff id).mpr hidne
    rcases hbad with h | h
    · simp [validateEnvelope, hv, hvf, hid, hif, h]
    · simp [validateEnvelope, hv, hvf, hid, hif, h]
  · intro hv hvne hid hidne henc hencne hver
    have hvf : strEmpty v = false := (strEmpty_false_iff v).mpr hvne
    have hif : strEmpty id = false := (strEmpty_false_iff id).mpr hidne
    have hver2 : v ∉ getAllowedVersions env := by simpa using hver
    cases enc with
    | null => exact absurd rfl hencne
    | bool b => simp [validateEnvelope, hv, hvf, hid, hif, henc, hver2]
    | num n => simp [validateEnvelope, hv, hvf, hid, hif, henc, hver2]
    | str s => simp [validateEnvelope, hv, hvf, hid, hif, henc, hver2]
    | arr xs => simp [validateEnvelope, hv, hvf, hid, hif, henc, hver2]
    | obj gs => simp [validateEnvelope, hv, hvf, hid, hif, henc, hver2]
  · intro hv hvne hid hidne henc hencne hver hhex
    have hvf : strEmpty v = false := (strEmpty_false_iff v).mpr hvne
    have hif : strEmpty id = false := (strEmpty_false_iff id).mpr hidne
    have hver2 : v ∈ getAllowedVersions env := by simpa using hver
    cases enc with
    | null => exact absurd rfl hencne
    | bool b => simp [validateEnvelope, hv, hvf, hid, hif, henc, hver2, hhex]
    | num n => simp [validateEnvelope, hv, hvf, hid, hif, henc, hver2, hhex]
    | str s => simp [validateEnvelope, hv, hvf, hid, hif, henc, hver2, hhex]
    | arr xs => simp [validateEnvelope, hv, hvf, hid, hif, henc, hver2, hhex]
    | obj gs => simp [validateEnvelope, hv, hvf, hid, hif, henc, hver2, hhex]
  · intro hv hvne hid hidne henc hver hhex
    have hvf : strEmpty v = false := (strEmpty_false_iff v).mpr hvne
    have hif : strEmpty id = false := (strEmpty_false_iff id).mpr hidne
    have hver2 : v ∈ getAllowedVersions env := by simpa using hver
    constructor
    · intro hbn
      rcases hbn with ⟨b, rfl⟩ | ⟨n, rfl⟩
      · simp [validateEnvelope, hv, hvf, hid, hif, henc, hver2, hhex]
      · simp [validateEnvelope, hv, hvf, hid, hif, henc, hver2, hhex]
    · intro hnn hnb hnm
      cases enc with
      | null => exact absurd rfl hnn
      | bool b => exact absurd rfl (hnb b)
      | num n => exact absurd rfl (hnm n)
      | str s => simp [validateEnvelope, hv, hvf, hid, hif, henc, hver2, hhex]
      | arr xs => simp [validateEnvelope, hv, hvf, hid, hif, henc, hver2, hhex]
      | obj gs => simp [validateEnvelope, hv, hvf, hid, hif, henc, hver2, hhex]

-- ═══════════════════ pipeline lemmas shared by C1/C2/C4 ══════════════════════

/-- The HMAC gate admits the request: either no secret is configured
(the gate is off), or the payload is a string, the header is present
and non-empty, and the signature verifies — read off the branches of
`hmacStage`. -/
def hmacPasses (plat : Platform) (env : IntakeEnv) (req : IntakeReq)
    (envl : IntakeEnvelope) : Prop :=
  strFalsy env.intakeHmacSecret = true ∨
  (∃ s, envl.encrypted = .str s ∧ strFalsy req.hmacHeader = false ∧
    verifyHMAC plat (env.intakeHmacSecret.getD "") envl.id s
      (jsToLower (req.hmacHeader.getD "")) = true)

theorem pipeline_reaches_insert (plat : Platform) (env : IntakeEnv) (now : String)
    (req : IntakeReq) (db : List Row) (body : JVal) (envl : IntakeEnvelope)
    (hm : req.method = "POST")
    (hct : jsIncludes (req.contentType.getD "") "application/json" = true)
    (hsz : ¬((req.bodyByteLen : Int) > intakeMaxBytes env))
    (hbody : req.bodyJson = some body)
    (hval : validateEnvelope body env = .ok envl)
    (hesz : ¬((utf8Len (encJsonOf envl) : Int) > intakeMaxBytes env))
    (hhmac : hmacPasses plat env req envl) :
    onRequestIntake plat env now req db =
      insertStage plat env now req db req.origin envl (encJsonOf envl) := by
  have hopt : (req.method == "OPTIONS") = false := by rw [hm]; rfl
  have hpost : (req.method != "POST") = false := by rw [hm]; rfl
  unfold onRequestIntake
  try dsimp only
  rw [if_neg (by simp [hopt]), if_neg (by simp [hpost]), if_neg (by simp [hct]),
      if_neg hsz, hbody]
  try dsimp only
  rw [hval]
  try dsimp only
  unfold envelopeStage
  try dsimp only
  rw [if_neg hesz]
  unfold hmacStage
  by_cases hsec : strFalsy env.intakeHmacSecret = true
  · rw [if_neg (by simp [hsec])]
  · have hsecf : strFalsy env.intakeHmacSecret = false := by
      cases h : strFalsy env.intakeHmacSecret with
      | true => exact absurd h hsec
      | false => rfl
    rcases hhmac with h | ⟨s, hs, hh, hv2⟩
    · exact absurd h hsec
    · rw [if_pos (by simp [hsecf]), hs]
      dsimp only
      rw [if_neg (by simp [hh]), if_neg (by simp [hv2])]

theorem insertStage_dup (plat : Platform) (env : IntakeEnv) (now : String)
    (req : IntakeReq) (db : List Row) (origin : Option String) (envl : IntakeEnvelope)
    (encJson : String) (hdup : ∃ r ∈ db, r.id = envl.id) :
    insertStage plat env now req db origin envl encJson =
      (jsonResponse (okBody envl.id "duplicate") 200 origin env, db) := by
  unfold insertStage
  have hany : db.any (fun r => r.id == envl.id) = true := by
    rcases hdup with ⟨r, hr, he⟩
    exact List.any_eq_true.mpr ⟨r, hr, by simp [he]⟩
  rw [if_pos hany]
  try dsimp only
  rw [if_pos (by decide)]

theorem insertStage_fresh (plat : Platform) (env : IntakeEnv) (now : String)
    (req : IntakeReq) (db : List Row) (origin : Option String) (envl : IntakeEnvelope)
    (encJson : String) (hfresh : ∀ r ∈ db, r.id ≠ envl.id) :
    insertStage plat env now req db origin envl encJson =
      (jsonResponse (okBody envl.id "created") 201 origin env,
       db ++ [newRowOf plat env now req envl encJson]) := by
  unfold insertStage
  have hany : db.any (fun r => r.id == envl.id) = false := by
    rw [Bool.eq_false_iff]
    intro h
    rcases List.any_eq_true.mp h with ⟨r, hr, he⟩
    exact hfresh r hr (by simpa using he)
  rw [if_neg (by simp [hany])]

-- ═══════════════════════════════ claim C1 ════════════════════════════════════

/-- C1: when a valid envelope passes every pre-insert gate and its
(lowercased) id is already stored, the insert attempt leaves the table
unchanged and the endpoint answers `200 {ok:true, id, status:"duplicate"}`;
submitting the same valid envelope twice stores exactly one row,
answering `201 created` then `200 duplicate`. -/
theorem intake_duplicate_idempotent (plat : Platform) (env : IntakeEnv)
    (now now2 : String) (req : IntakeReq) (db : List Row) (body : JVal)
    (envl : IntakeEnvelope)
    (hm : req.method = "POST")
    (hct : jsIncludes (req.contentType.getD "") "application/json" = true)
    (hsz : ¬((req.bodyByteLen : Int) > intakeMaxBytes env))
    (hbody : req.bodyJson = some body)
    (hval : validateEnvelope body env = .ok envl)
    (hesz : ¬((utf8Len (encJsonOf envl) : Int) > intakeMaxBytes env))
    (hhmac : hmacPasses plat env req envl) :
    ((∃ r ∈ db, r.id = envl.id) →
      onRequestIntake plat env now req db =
        (jsonResponse (okBody envl.id "duplicate") 200 req.origin env, db)) ∧
    ((∀ r ∈ db, r.id ≠ envl.id) →
      onRequestIntake plat env now req db =
        (jsonResponse (okBody envl.id "created") 201 req.origin env,
         db ++ [newRowOf plat env now req envl (encJsonOf envl)]) ∧
      onRequestIntake plat env now2 req
          (db ++ [newRowOf plat env now req envl (encJsonOf envl)]) =
        (jsonResponse (okBody envl.id "duplicate") 200 req.origin env,
         db ++ [newRowOf plat env now req envl (encJsonOf envl)]) ∧
      ((db ++ [newRowOf plat env now req envl (encJsonOf envl)]).filter
          (fun r => r.id == envl.id)).length = 1) := by
  constructor
  · intro hdup
    rw [pipeline_reaches_insert plat env now req db body envl hm hct hsz hbody hval hesz hhmac]
    exact insertStage_dup plat env now req db req.origin envl (encJsonOf envl) hdup
  · intro hfresh
    refine ⟨?_, ?_, ?_⟩
    · rw [pipeline_reaches_insert plat env now req db body envl hm hct hsz hbody hval hesz hhmac]
      exact insertStage_fresh plat env now req db req.origin envl (encJsonOf envl) hfresh
    · rw [pipeline_reaches_insert plat env now2 req
        (db ++ [newRowOf plat env now req envl (encJsonOf envl)]) body envl hm hct hsz hbody
        hval hesz hhmac]
      exact insertStage_dup plat env now2 req _ req.origin envl (encJsonOf envl)
        ⟨newRowOf plat env now req envl (encJsonOf envl), by simp, rfl⟩
    · rw [List.filter_append]
      have h1 : db.filter (fun r => r.id == envl.id) = [] := by
        rw [List.filter_eq_nil_iff]
        intro r hr
        simp [hfresh r hr]
      rw [h1]
      simp [newRowOf]

/-- Witness for C1: a concrete double submission. -/
theorem intake_duplicate_idempotent_witness :
    onRequestIntake trivPlat {} "t1"
        { bodyByteLen := 60,
          bodyJson := some (.obj [("v", .str "loggie.intake.v1"),
            ("id", .str (String.mk (List.replicate 64 'a'))), ("encrypted", .str "x")]) } [] =
      (jsonResponse (okBody (String.mk (List.replicate 64 'a')) "created") 201 none {},
       [] ++ [newRowOf trivPlat {} "t1"
          { bodyByteLen := 60,
            bodyJson := some (.obj [("v", .str "loggie.intake.v1"),
              ("id", .str (String.mk (List.replicate 64 'a'))), ("encrypted", .str "x")]) }
          ⟨"loggie.intake.v1", String.mk (List.replicate 64 'a'), .str "x"⟩ "x"]) :=
  ((intake_duplicate_idempotent trivPlat {} "t1" "t2"
      { bodyByteLen := 60,
        bodyJson := some (.obj [("v", .str "loggie.intake.v1"),
          ("id", .str (String.mk (List.replicate 64 'a'))), ("encrypted", .str "x")]) } []
      (.obj [("v", .str "loggie.intake.v1"),
        ("id", .str (String.mk (List.replicate 64 'a'))), ("encrypted", .str "x")])
      ⟨"loggie.intake.v1", String.mk (List.replicate 64 'a'), .str "x"⟩
      rfl (by decide) (by decide) rfl rfl (by decide) (Or.inl rfl)).2
    (by intro r hr; cases hr)).1

/-- Witness for the amended C3 ordering at a concrete body: presence of
`encrypted` is checked before version membership. -/
theorem validate_fail_fast_order_witness :
    validateEnvelope
        (.obj [("v", .str "vx"), ("id", .str (String.mk (List.replicate 64 'b')))]) {} =
      .error "Missing 'encrypted' field" :=
  (validate_fail_fast_order {} .null
      [("v", .str "vx"), ("id", .str (String.mk (List.replicate 64 'b')))]
      "vx" (String.mk (List.replicate 64 'b')) .null).2.2.2.1
    rfl (by decide) rfl (by decide) (Or.inl rfl)

-- ═══════════════════════════════ claim C2 ════════════════════════════════════

theorem validate_ok_id (env : IntakeEnv) (fs : List (String × JVal)) (idStr : String)
    (envl : IntakeEnvelope)
    (hid : jsProp (.obj fs) "id" = some (.str idStr))
    (hval : validateEnvelope (.obj fs) env = .ok envl) :
    envl.id = jsToLower idStr ∧ isHex64 envl.id = true := by
  unfold validateEnvelope at hval
  dsimp only at hval
  rw [hid] at hval
  repeat' split at hval
  all_goals try (simp at hval)
  all_goals
    try (exact ((‹∀ i : String, some (JVal.str idStr) = some (JVal.str i) → False›) idStr rfl).elim)
  all_goals simp_all
  all_goals subst hval
  all_goals exact ⟨rfl, by assumption⟩

/-- C2: the submitted id is lowercased before the format check (the
canonical envelope id is `jsToLower` of the submitted id and passes the
hex check), the HMAC is verified over that lowercase id, the stored row
carries the lowercase id, and resubmitting an already-stored id in any
casing yields `200 duplicate` with no second row. -/
theorem intake_id_lowercase_normalization (plat : Platform) (env : IntakeEnv)
    (now : String) (req : IntakeReq) (db : List Row) (fs : List (String × JVal))
    (idStr : String) (envl : IntakeEnvelope)
    (hid : jsProp (.obj fs) "id" = some (.str idStr))
    (hval : validateEnvelope (.obj fs) env = .ok envl) :
    (envl.id = jsToLower idStr ∧ isHex64 envl.id = true) ∧
    (∀ secret s hdr,
      verifyHMAC plat secret envl.id s (jsToLower hdr) =
        ctEq (plat.hmacHex secret (jsToLower idStr ++ "." ++ s)) (jsToLower hdr)) ∧
    (req.method = "POST" → jsIncludes (req.contentType.getD "") "application/json" = true →
      ¬((req.bodyByteLen : Int) > intakeMaxBytes env) → req.bodyJson = some (.obj fs) →
      ¬((utf8Len (encJsonOf envl) : Int) > intakeMaxBytes env) →
      hmacPasses plat env req envl →
      ((∀ r ∈ db, r.id ≠ jsToLower idStr) →
        (onRequestIntake plat env now req db).2 =
          db ++ [newRowOf plat env now req envl (encJsonOf envl)] ∧
        (newRowOf plat env now req envl (encJsonOf envl)).id = jsToLower idStr) ∧
      ((∃ r ∈ db, r.id = jsToLower idStr) →
        onRequestIntake plat env now req db =
          (jsonResponse (okBody (jsToLower idStr) "duplicate") 200 req.origin env, db))) := by
  obtain ⟨hlow, hhex⟩ := validate_ok_id env fs idStr envl hid hval
  refine ⟨⟨hlow, hhex⟩, ?_, ?_⟩
  · intro secret s hdr
    rw [verifyHMAC, hlow]
  · intro hm hct hsz hbody hesz hhmac
    constructor
    · intro hfresh
      have hfresh' : ∀ r ∈ db, r.id ≠ envl.id := by
        intro r hr
        rw [hlow]
        exact hfresh r hr
      rw [pipeline_reaches_insert plat env now req db (.obj fs) envl hm hct hsz hbody hval
        hesz hhmac,
        insertStage_fresh plat env now req db req.origin envl (encJsonOf envl) hfresh']
      exact ⟨rfl, by rw [newRowOf, hlow]⟩
    · intro hdup
      have hdup' : ∃ r ∈ db, r.id = envl.id := by
        rcases hdup with ⟨r, hr, he⟩
        exact ⟨r, hr, by rw [he, hlow]⟩
      rw [pipeline_reaches_insert plat env now req db (.obj fs) envl hm hct hsz hbody hval
        hesz hhmac,
        insertStage_dup plat env now req db req.origin envl (encJsonOf envl) hdup', hlow]

/-- Witness for C2: an uppercase resubmission of a stored lowercase id
is answered `200 duplicate` with the table unchanged. -/
theorem intake_id_lowercase_normalization_witness :
    onRequestIntake trivPlat {} "t"
        { bodyByteLen := 60,
          bodyJson := some (.obj [("v", .str "loggie.intake.v1"),
            ("id", .str (String.mk (List.replicate 64 'A'))), ("encrypted", .str "x")]) }
        [{ id := String.mk (List.replicate 64 'a'), v := "loggie.intake.v1",
           encryptedJson := "e", receivedAt := "t0" }] =
      (jsonResponse (okBody (jsToLower (String.mk (List.replicate 64 'A'))) "duplicate")
        200 none {},
       [{ id := String.mk (List.replicate 64 'a'), v := "loggie.intake.v1",
          encryptedJson := "e", receivedAt := "t0" }]) :=
  ((intake_id_lowercase_normalization trivPlat {} "t"
      { bodyByteLen := 60,
        bodyJson := some (.obj [("v", .str "loggie.intake.v1"),
          ("id", .str (String.mk (List.replicate 64 'A'))), ("encrypted", .str "x")]) }
      [{ id := String.mk (List.replicate 64 'a'), v := "loggie.intake.v1",
         encryptedJson := "e", receivedAt := "t0" }]
      [("v", .str "loggie.intake.v1"),
        ("id", .str (String.mk (List.replicate 64 'A'))), ("encrypted", .str "x")]
      (String.mk (List.replicate 64 'A'))
      ⟨"loggie.intake.v1", String.mk (List.replicate 64 'a'), .str "x"⟩
      rfl rfl).2.2 rfl (by decide) (by decide) rfl (by decide) (Or.inl rfl)).2
    ⟨{ id := String.mk (List.replicate 64 'a'), v := "loggie.intake.v1",
       encryptedJson := "e", receivedAt := "t0" }, by simp, by decide⟩

-- ═══════════════════════════════ claim C4 ════════════════════════════════════

theorem string_eq_of_data {a b : String} (h : a.data = b.data) : a = b := by
  cases a
  cases b
  cases h
  rfl

theorem nat_or_eq_zero {x y : ℕ} : x ||| y = 0 ↔ x = 0 ∧ y = 0 := by
  constructor
  · intro h
    have hb : ∀ i, x.testBit i = false ∧ y.testBit i = false := by
      intro i
      have := congrArg (fun n => n.testBit i) h
      simpa [Nat.testBit_or] using this
    constructor
    · apply Nat.eq_of_testBit_eq
      intro i
      simp [(hb i).1, Nat.zero_testBit]
    · apply Nat.eq_of_testBit_eq
      intro i
      simp [(hb i).2, Nat.zero_testBit]
  · rintro ⟨rfl, rfl⟩
    rfl

theorem char_toNat_inj {c d : Char} (h : c.toNat = d.toNat) : c = d := by
  have := congrArg Char.ofNat h
  rwa [Char.ofNat_toNat, Char.ofNat_toNat] at this

theorem foldOr_zero (l : List (Char × Char)) (acc : ℕ) :
    (l.foldl (fun acc p => acc ||| (p.1.toNat ^^^ p.2.toNat)) acc = 0) ↔
      acc = 0 ∧ ∀ p ∈ l, p.1 = p.2 := by
  induction l generalizing acc with
  | nil => simp
  | cons p t ih =>
      simp only [List.foldl_cons, ih, nat_or_eq_zero, Nat.xor_eq_zero, List.mem_cons]
      constructor
      · rintro ⟨⟨h1, h2⟩, h3⟩
        exact ⟨h1, fun q hq => hq.elim (fun he => he ▸ char_toNat_inj h2) (h3 q)⟩
      · rintro ⟨h1, h2⟩
        exact ⟨⟨h1, congrArg Char.toNat (h2 p (Or.inl rfl))⟩, fun q hq => h2 q (Or.inr hq)⟩

theorem list_eq_of_zip {α : Type} (xs ys : List α) (hl : xs.length = ys.length)
    (hp : ∀ p ∈ xs.zip ys, p.1 = p.2) : xs = ys := by
  induction xs generalizing ys with
  | nil => cases ys with
    | nil => rfl
    | cons y t => cases hl
  | cons x t ih =>
      cases ys with
      | nil => cases hl
      | cons y u =>
          have h1 : x = y := hp (x, y) (by simp)
          have h2 : t = u := ih u (by simpa using hl) (fun p hq => hp p (by simp [hq]))
          rw [h1, h2]

theorem zip_self_eq {α : Type} (l : List α) : ∀ p ∈ l.zip l, p.1 = p.2 := by
  induction l with
  | nil => intro p hp; cases hp
  | cons x t ih =>
      intro p hp
      rcases List.mem_cons.mp hp with rfl | hp2
      · rfl
      · exact ih p hp2

/-- The constant-time comparison computes exactly string equality. -/
theorem ctEq_eq (a b : String) : ctEq a b = (a == b) := by
  unfold ctEq
  by_cases h : a.length = b.length
  · rw [if_neg (by simpa using h)]
    have key : ((a.data.zip b.data).foldl (fun acc p => acc ||| (p.1.toNat ^^^ p.2.toNat)) 0 = 0)
        ↔ a = b := by
      rw [foldOr_zero]
      constructor
      · rintro ⟨-, hp⟩
        exact string_eq_of_data (list_eq_of_zip a.data b.data h hp)
      · rintro rfl
        exact ⟨rfl, zip_self_eq a.data⟩
    rw [Bool.eq_iff_iff]
    simp only [beq_iff_eq]
    exact key
  · rw [if_pos (by simpa using h)]
    symm
    exact beq_eq_false_iff_ne.mpr (fun he => h (by rw [he]))

theorem pipeline_reaches_hmac (plat : Platform) (env : IntakeEnv) (now : String)
    (req : IntakeReq) (db : List Row) (body : JVal) (envl : IntakeEnvelope)
    (hm : req.method = "POST")
    (hct : jsIncludes (req.contentType.getD "") "application/json" = true)
    (hsz : ¬((req.bodyByteLen : Int) > intakeMaxBytes env))
    (hbody : req.bodyJson = some body)
    (hval : validateEnvelope body env = .ok envl)
    (hesz : ¬((utf8Len (encJsonOf envl) : Int) > intakeMaxBytes env)) :
    onRequestIntake plat env now req db =
      hmacStage plat env now req db req.origin envl (encJsonOf envl) := by
  have hopt : (req.method == "OPTIONS") = false := by rw [hm]; rfl
  have hpost : (req.method != "POST") = false := by rw [hm]; rfl
  unfold onRequestIntake
  try dsimp only
  rw [if_neg (by simp [hopt]), if_neg (by simp [hpost]), if_neg (by simp [hct]),
      if_neg hsz, hbody]
  try dsimp only
  rw [hval]
  try dsimp only
  unfold envelopeStage
  try dsimp only
  rw [if_neg hesz]

theorem insertStage_status_ne_401 (plat : Platform) (env : IntakeEnv) (now : String)
    (req : IntakeReq) (db : List Row) (origin : Option String) (envl : IntakeEnvelope)
    (encJson : String) :
    (insertStage plat env now req db origin envl encJson).1.status ≠ 401 := by
  unfold insertStage
  try dsimp only
  repeat' split
  all_goals simp [jsonResponse, errorResponse]

/-- C4 counterexample: with the secret configured, an *uppercase* hex
signature is accepted (the handler lowercases the header before the
comparison), even though it is not string-equal to the hex HMAC output
(which is lowercase hex) — refuting "passes if and only if the provided
signature equals the hex HMAC". -/
theorem hmac_case_counterexample :
    (onRequestIntake
        ⟨fun _ _ => String.mk (List.replicate 64 'a'), fun _ => "", fun _ => none⟩
        { intakeHmacSecret := some "s" } "t"
        { bodyByteLen := 60, hmacHeader := some (String.mk (List.replicate 64 'A')),
          bodyJson := some (.obj [("v", .str "loggie.intake.v1"),
            ("id", .str (String.mk (List.replicate 64 'b'))), ("encrypted", .str "x")]) }
        []).1.status = 201 ∧
    String.mk (List.replicate 64 'A') ≠
      (⟨fun _ _ => String.mk (List.replicate 64 'a'), fun _ => "", fun _ => none⟩
        : Platform).hmacHex "s" (String.mk (List.replicate 64 'b') ++ "." ++ "x") ∧
    isHex64 ((⟨fun _ _ => String.mk (List.replicate 64 'a'), fun _ => "", fun _ => none⟩
        : Platform).hmacHex "s" (String.mk (List.replicate 64 'b') ++ "." ++ "x")) = true := by
  refine ⟨rfl, by decide, by decide⟩

/-- C4 (amended): with a secret configured, after validation and the
size checks — a non-string payload is rejected `400` regardless of any
signature header; an absent or empty header is rejected `401`; with a
non-empty header the request is rejected `Invalid HMAC` exactly when
the *lowercased* header differs from the hex HMAC-SHA256 of
`lowercase(id) + "." + encrypted` under the secret; and the comparison
(`ctEq`, length check then bitwise-XOR accumulation) computes string
equality. -/
theorem hmac_auth_characterization (plat : Platform) (env : IntakeEnv) (now : String)
    (req : IntakeReq) (db : List Row) (body : JVal) (envl : IntakeEnvelope)
    (secret : String)
    (hsec : env.intakeHmacSecret = some secret) (hsecne : secret ≠ "")
    (hm : req.method = "POST")
    (hct : jsIncludes (req.contentType.getD "") "application/json" = true)
    (hsz : ¬((req.bodyByteLen : Int) > intakeMaxBytes env))
    (hbody : req.bodyJson = some body)
    (hval : validateEnvelope body env = .ok envl)
    (hesz : ¬((utf8Len (encJsonOf envl) : Int) > intakeMaxBytes env)) :
    ((∀ e, envl.encrypted ≠ .str e) →
      onRequestIntake plat env now req db =
        (errorResponse "When HMAC is enabled, 'encrypted' must be a string" 400
          req.origin env, db)) ∧
    (∀ s, envl.encrypted = .str s → strFalsy req.hmacHeader = true →
      onRequestIntake plat env now req db =
        (errorResponse "Missing X-Intake-HMAC header" 401 req.origin env, db)) ∧
    (∀ s hdr, envl.encrypted = .str s → req.hmacHeader = some hdr → hdr ≠ "" →
      (onRequestIntake plat env now req db =
          (errorResponse "Invalid HMAC" 401 req.origin env, db) ↔
        jsToLower hdr ≠ plat.hmacHex secret (envl.id ++ "." ++ s))) ∧
    (∀ a b, ctEq a b = (a == b)) := by
  have hpipe := pipeline_reaches_hmac plat env now req db body envl hm hct hsz hbody hval hesz
  have hsecf : strFalsy env.intakeHmacSecret = false := by
    rw [hsec]
    exact (strEmpty_false_iff secret).mpr hsecne
  refine ⟨?_, ?_, ?_, ctEq_eq⟩
  · intro hns
    rw [hpipe]
    unfold hmacStage
    rw [if_pos (by simp [hsecf])]
    cases he : envl.encrypted with
    | str s => exact absurd he (hns s)
    | null => rfl
    | bool b => rfl
    | num n => rfl
    | arr xs => rfl
    | obj gs => rfl
  · intro s hs hh
    rw [hpipe]
    unfold hmacStage
    rw [if_pos (by simp [hsecf]), hs]
    try dsimp only
    rw [if_pos hh]
  · intro s hdr hs hhdr hhne
    have hhf : strFalsy req.hmacHeader = false := by
      rw [hhdr]
      exact (strEmpty_false_iff hdr).mpr hhne
    rw [hpipe]
    unfold hmacStage
    rw [if_pos (by simp [hsecf]), hs]
    try dsimp only
    rw [if_neg (by simp [hhf]), hsec, hhdr]
    try dsimp only
    rw [verifyHMAC, ctEq_eq]
    by_cases heq : plat.hmacHex secret (envl.id ++ "." ++ s) = jsToLower hdr
    · rw [if_neg (by simp [heq])]
      constructor
      · intro hcontra
        have := congrArg (fun p => p.1.status) hcontra
        dsimp only at this
        exact absurd (by simpa [errorResponse, jsonResponse] using this)
          (insertStage_status_ne_401 plat env now req db req.origin envl (encJsonOf envl))
      · intro hne
        exact absurd heq.symm hne
    · rw [if_pos (by simp [beq_eq_false_iff_ne.mpr heq])]
      constructor
      · intro _
        exact fun he => heq he.symm
      · intro _
        rfl

/-- Witness for the amended C4: a mismatched (lowercase) signature is
rejected with `Invalid HMAC`. -/
theorem hmac_auth_characterization_witness :
    onRequestIntake
        ⟨fun _ _ => String.mk (List.replicate 64 'a'), fun _ => "", fun _ => none⟩
        { intakeHmacSecret := some "s" } "t"
        { bodyByteLen := 60, hmacHeader := some (String.mk (List.replicate 64 'f')),
          bodyJson := some (.obj [("v", .str "loggie.intake.v1"),
            ("id", .str (String.mk (List.replicate 64 'b'))), ("encrypted", .str "x")]) }
        [] =
      (errorResponse "Invalid HMAC" 401 none { intakeHmacSecret := some "s" }, []) :=
  ((hmac_auth_characterization
      ⟨fun _ _ => String.mk (List.replicate 64 'a'), fun _ => "", fun _ => none⟩
      { intakeHmacSecret := some "s" } "t"
      { bodyByteLen := 60, hmacHeader := some (String.mk (List.replicate 64 'f')),
        bodyJson := some (.obj [("v", .str "loggie.intake.v1"),
          ("id", .str (String.mk (List.replicate 64 'b'))), ("encrypted", .str "x")]) }
      []
      (.obj [("v", .str "loggie.intake.v1"),
        ("id", .str (String.mk (List.replicate 64 'b'))), ("encrypted", .str "x")])
      ⟨"loggie.intake.v1", String.mk (List.replicate 64 'b'), .str "x"⟩
      "s" rfl (by decide) rfl (by decide) (by decide) rfl rfl (by decide)).2.2.1
    "x" (String.mk (List.replicate 64 'f')) rfl rfl (by decide)).mpr (by decide)

-- ═══════════════════════════════ claim C8 ════════════════════════════════════

theorem char_toLower_of_hex (c : Char) (h : (c.isDigit || ('a' ≤ c && c ≤ 'f')) = true) :
    c.toLower = c := by
  unfold Char.toLower
  simp only [Bool.or_eq_true, Bool.and_eq_true, Char.isDigit, Char.le_def] at h
  dsimp only
  split
  · next hc =>
      exfalso
      rcases h with ⟨h1, h2⟩ | ⟨h1, h2⟩
      · have g2 := of_decide_eq_true h2
        have n2 : c.toNat ≤ 57 := UInt32.toNat_le_of_le (by decide) g2
        omega
      · have g1 := of_decide_eq_true h1
        have n1 : (97 : Nat) ≤ c.toNat := UInt32.le_toNat_of_le (by decide) g1
        omega
  · rfl

theorem map_toLower_of_hex (l : List Char)
    (hall : ∀ x ∈ l, (x.isDigit || ('a' ≤ x && x ≤ 'f')) = true) :
    l.map Char.toLower = l := by
  induction l with
  | nil => rfl
  | cons c t ih =>
      rw [List.map_cons, char_toLower_of_hex c (hall c (by simp)),
        ih (fun x hx => hall x (by simp [hx]))]

theorem toLower_of_hex64 (s : String) (h : isHex64 s = true) : jsToLower s = s := by
  unfold isHex64 at h
  simp only [Bool.and_eq_true, List.all_eq_true] at h
  apply string_eq_of_data
  show (s.data.map Char.toLower) = s.data
  exact map_toLower_of_hex s.data h.2

theorem find?_updateWhereId (f : Row → Row) (id0 qid : String) (rows : List Row)
    (hf : ∀ r, (f r).id = r.id) :
    (updateWhereId f id0 rows).1.find? (fun q => q.id == qid) =
      (rows.find? (fun q => q.id == qid)).map (fun r => if r.id == id0 then f r else r) := by
  unfold updateWhereId
  dsimp only
  induction rows with
  | nil => rfl
  | cons r t ih =>
      have hg : ((if r.id == id0 then f r else r).id == qid) = (r.id == qid) := by
        by_cases h0 : (r.id == id0) = true
        · rw [if_pos h0, hf r]
        · rw [if_neg h0]
      rw [List.map_cons, List.find?_cons, List.find?_cons]
      try dsimp only
      rw [hg]
      cases hqb : (r.id == qid) with
      | true => rfl
      | false => exact ih

theorem insertStage_db_cases (plat : Platform) (env : IntakeEnv) (now : String)
    (req : IntakeReq) (db : List Row) (origin : Option String) (envl : IntakeEnvelope)
    (encJson : String) :
    (insertStage plat env now req db origin envl encJson).2 = db ∨
    ∃ row, (insertStage plat env now req db origin envl encJson).2 = db ++ [row] := by
  unfold insertStage
  try dsimp only
  repeat' split
  all_goals first
    | exact Or.inl rfl
    | exact Or.inr ⟨_, rfl⟩

theorem hmacStage_db_cases (plat : Platform) (env : IntakeEnv) (now : String)
    (req : IntakeReq) (db : List Row) (origin : Option String) (envl : IntakeEnvelope)
    (encJson : String) :
    (hmacStage plat env now req db origin envl encJson).2 = db ∨
    ∃ row, (hmacStage plat env now req db origin envl encJson).2 = db ++ [row] := by
  unfold hmacStage
  try dsimp only
  repeat' split
  all_goals first
    | exact Or.inl rfl
    | exact insertStage_db_cases plat env now req db origin envl encJson

theorem envelopeStage_db_cases (plat : Platform) (env : IntakeEnv) (now : String)
    (req : IntakeReq) (db : List Row) (origin : Option String) (maxBytes : Int)
    (envl : IntakeEnvelope) :
    (envelopeStage plat env now req db origin maxBytes envl).2 = db ∨
    ∃ row, (envelopeStage plat env now req db origin maxBytes envl).2 = db ++ [row] := by
  unfold envelopeStage
  try dsimp only
  repeat' split
  all_goals first
    | exact Or.inl rfl
    | apply hmacStage_db_cases

theorem onRequestIntake_db_cases (plat : Platform) (env : IntakeEnv) (now : String)
    (req : IntakeReq) (db : List Row) :
    (onRequestIntake plat env now req db).2 = db ∨
    ∃ row, (onRequestIntake plat env now req db).2 = db ++ [row] := by
  unfold onRequestIntake
  try dsimp only
  repeat' split
  all_goals first
    | exact Or.inl rfl
    | apply envelopeStage_db_cases

theorem find?_update_preserves (f : Row → Row) (id0 qid : String) (rows : List Row) (r : Row)
    (hf : ∀ x, (f x).id = x.id) (hfv : ∀ x, (f x).viewedAt = x.viewedAt)
    (hfind : rows.find? (fun q => q.id == qid) = some r) :
    ∃ r2, (updateWhereId f id0 rows).1.find? (fun q => q.id == qid) = some r2 ∧
      r2.viewedAt = r.viewedAt := by
  rw [find?_updateWhereId f id0 qid rows hf, hfind]
  refine ⟨_, rfl, ?_⟩
  show (if (r.id == id0) = true then f r else r).viewedAt = r.viewedAt
  by_cases h0 : (r.id == id0) = true
  · rw [if_pos h0]
    exact hfv r
  · rw [if_neg h0]

/-- C8: no operation of the core ever clears or overwrites a non-null
`viewedAt`; the admin fetch-by-id sets it — together with a `viewed`
audit event — exactly when it is currently unset, and leaves the store
untouched on any later view. -/
theorem viewedAt_set_once (op : CoreOp) (st : DBState) (qid t now : String)
    (actorOpt : Option String) (r : Row)
    (hfind : st.requests.find? (fun q => q.id == qid) = some r) :
    (r.viewedAt = some t → t ≠ "" →
      ∃ r2, (applyOp op st).requests.find? (fun q => q.id == qid) = some r2 ∧
        r2.viewedAt = some t) ∧
    (isHex64 qid = true →
      (strFalsy r.viewedAt = true →
        (adminFetch (some qid) actorOpt now st).2 =
          { requests := (updateWhereId (fun q => { q with viewedAt := some now }) qid
              st.requests).1
            events := logEvent st.events qid "viewed" (effActor actorOpt) none now } ∧
        ∃ r2, (adminFetch (some qid) actorOpt now st).2.requests.find?
            (fun q => q.id == qid) = some r2 ∧ r2.viewedAt = some now) ∧
      (strFalsy r.viewedAt = false →
        (adminFetch (some qid) actorOpt now st).2 = st)) := by
  have hpred : (r.id == qid) = true := List.find?_some (p := fun (q : Row) => q.id == qid) hfind
  have hrid : r.id = qid := beq_iff_eq.mp hpred
  constructor
  · intro hv ht
    have hnotfalsy : strFalsy r.viewedAt = false := by
      rw [hv]
      exact (strEmpty_false_iff t).mpr ht
    cases op with
    | ingest plat env now0 req =>
        rcases onRequestIntake_db_cases plat env now0 req st.requests with h | ⟨row, h⟩
        · simp only [applyOp]
          rw [h]
          exact ⟨r, hfind, hv⟩
        · simp only [applyOp]
          rw [h, List.find?_append, hfind]
          exact ⟨r, rfl, hv⟩
    | listOp a b => exact ⟨r, hfind, hv⟩
    | fetch i a n =>
        simp only [applyOp]
        unfold adminFetch
        try dsimp only
        split
        · exact ⟨r, hfind, hv⟩
        · cases hf0 : st.requests.find? (fun q => q.id == jsToLower (i.getD "")) with
          | none => exact ⟨r, hfind, hv⟩
          | some r0 =>
              try dsimp only
              by_cases hvf : strFalsy r0.viewedAt = true
              · rw [if_pos hvf]
                try dsimp only
                by_cases hqe : qid = jsToLower (i.getD "")
                · exfalso
                  rw [← hqe, hfind] at hf0
                  cases hf0
                  rw [hnotfalsy] at hvf
                  cases hvf
                · rw [find?_updateWhereId (fun q => { q with viewedAt := some n })
                      (jsToLower (i.getD "")) qid st.requests (fun x => rfl), hfind]
                  refine ⟨_, rfl, ?_⟩
                  show (if (r.id == jsToLower (i.getD "")) = true
                      then { r with viewedAt := some n } else r).viewedAt = some t
                  have hne : (r.id == jsToLower (i.getD "")) = false := by
                    rw [beq_eq_false_iff_ne, hrid]
                    exact hqe
                  rw [if_neg (by simp [hne])]
                  exact hv
              · rw [if_neg hvf]
                exact ⟨r, hfind, hv⟩
    | noteOp i b a n =>
        simp only [applyOp]
        unfold adminNote
        try dsimp only
        repeat' split
        all_goals try exact ⟨r, hfind, hv⟩
        all_goals try dsimp only
        all_goals rw [← hv]
        all_goals refine find?_update_preserves _ _ qid st.requests r ?_ ?_ hfind
        all_goals intro x
        all_goals rfl
    | markProc i b a n =>
        simp only [applyOp]
        unfold adminMarkProcessed
        try dsimp only
        repeat' split
        all_goals try exact ⟨r, hfind, hv⟩
        all_goals try dsimp only
        all_goals rw [← hv]
        all_goals refine find?_update_preserves _ _ qid st.requests r ?_ ?_ hfind
        all_goals intro x
        all_goals rfl
    | unproc i a n =>
        simp only [applyOp]
        unfold adminUnprocess
        try dsimp only
        repeat' split
        all_goals try exact ⟨r, hfind, hv⟩
        all_goals try dsimp only
        all_goals rw [← hv]
        all_goals refine find?_update_preserves _ _ qid st.requests r ?_ ?_ hfind
        all_goals intro x
        all_goals rfl
  · intro hhex
    have hlow : jsToLower qid = qid := toLower_of_hex64 qid hhex
    constructor
    · intro hvf
      unfold adminFetch
      try dsimp only
      simp only [Option.getD]
      rw [hlow]
      rw [if_neg (by simp [hhex]), hfind]
      try dsimp only
      rw [if_pos hvf]
      refine ⟨rfl, ?_⟩
      try dsimp only
      rw [find?_updateWhereId (fun q => { q with viewedAt := some now }) qid qid
          st.requests (fun x => rfl), hfind]
      refine ⟨_, rfl, ?_⟩
      show (if (r.id == qid) = true then { r with viewedAt := some now } else r).viewedAt
          = some now
      rw [if_pos hpred]
    · intro hvs
      unfold adminFetch
      try dsimp only
      simp only [Option.getD]
      rw [hlow]
      rw [if_neg (by simp [hhex]), hfind]
      try dsimp only
      rw [if_neg (by simp [hvs])]

/-- Witness for C8: `unprocess` leaves a set `viewedAt` untouched. -/
def rowW : Row :=
  { id := String.mk (List.replicate 64 'a'), v := "v", encryptedJson := "e",
    receivedAt := "t0", viewedAt := some "t1" }

theorem viewedAt_set_once_witness :
    ∃ r2,
      (applyOp (.unproc (some (String.mk (List.replicate 64 'a'))) none "t9")
          { requests := [rowW], events := [] }).requests.find?
          (fun q => q.id == String.mk (List.replicate 64 'a')) = some r2 ∧
      r2.viewedAt = some "t1" :=
  (viewedAt_set_once (.unproc (some (String.mk (List.replicate 64 'a'))) none "t9")
      { requests := [rowW], events := [] }
      (String.mk (List.replicate 64 'a')) "t1" "tX" none rowW
      (by rfl)).1 rfl (by decide)

-- ═══════════════════════════════ claim C9 ════════════════════════════════════

set_option maxRecDepth 8192 in
/-- C9 (code bug): the code clamps metadata with JavaScript
`String.prototype.slice`, which counts UTF-16 code units, not bytes —
a User-Agent of 512 two-byte characters passes the clamp untruncated
and is stored as 1024 UTF-8 bytes, exceeding the documented 512-byte
limit (`MAX_UA_BYTES`; the README states "Clamped to 512 bytes"). -/
theorem ua_byte_limit_violation :
    jsSlice (String.mk (List.replicate 512 '¡')) 512 = String.mk (List.replicate 512 '¡') ∧
    ((onRequestIntake trivPlat {} "t"
        { bodyByteLen := 60, userAgent := some (String.mk (List.replicate 512 '¡')),
          bodyJson := some (.obj [("v", .str "loggie.intake.v1"),
            ("id", .str (String.mk (List.replicate 64 'c'))), ("encrypted", .str "x")]) }
        []).2.map (fun r => r.ua)) = [some (String.mk (List.replicate 512 '¡'))] ∧
    utf8Len (String.mk (List.replicate 512 '¡')) = 1024 ∧
    512 < utf8Len (String.mk (List.replicate 512 '¡')) := by
  refine ⟨rfl, rfl, rfl, by decide⟩

-- ═══════════════════════════════ claim C10 ═══════════════════════════════════

/-- A request body `mark-processed` accepts without a `400`: absent
(parse failure), no `note` property, or a string `note` — read off its
branches. -/
def mpNoteOk (body : Option JVal) : Prop :=
  match body with
  | none => True
  | some b =>
      match jsProp b "note" with
      | none => True
      | some (.str _) => True
      | some _ => False

theorem updateWhereId_any (f : Row → Row) (id : String) (rows : List Row)
    (hf : ∀ r, (f r).id = r.id) (hch : (updateWhereId f id rows).2 ≠ 0) :
    (updateWhereId f id rows).1.any (fun r => r.id == id) = true := by
  unfold updateWhereId at *
  dsimp only at hch ⊢
  have hex : ∃ r ∈ rows, (r.id == id) = true := by
    have hpos : 0 < (rows.filter (fun r => r.id == id)).length := Nat.pos_of_ne_zero hch
    rcases List.exists_mem_of_length_pos hpos with ⟨r, hr⟩
    rcases List.mem_filter.mp hr with ⟨h1, h2⟩
    exact ⟨r, h1, h2⟩
  rcases hex with ⟨r, hr, hpr⟩
  apply List.any_eq_true.mpr
  refine ⟨(fun r => if r.id == id then f r else r) r, List.mem_map_of_mem _ hr, ?_⟩
  show ((if (r.id == id) = true then f r else r).id == id) = true
  rw [if_pos hpr, hf r]
  exact hpr

theorem updateWhereId_zero_eq (f : Row → Row) (id : String) (rows : List Row)
    (habs : ∀ r ∈ rows, r.id ≠ id) :
    (updateWhereId f id rows).2 = 0 := by
  unfold updateWhereId
  dsimp only
  rw [List.length_eq_zero]
  rw [List.filter_eq_nil_iff]
  intro r hr
  simp [habs r hr]

/-- C10: an admin mutation (note, mark-processed, unprocess) on a
well-formed id that matches no stored row answers
`404 {ok:false, error:"Not found"}` and changes nothing; and any audit
event these endpoints append references a row present in the store at
the time it is written. -/
theorem admin_mutation_not_found (st : DBState) (idp : Option String)
    (body : Option JVal) (actorOpt : Option String) (now : String) (noteStr : String) :
    (isHex64 (jsToLower (idp.getD "")) = true →
      (∀ r ∈ st.requests, r.id ≠ jsToLower (idp.getD "")) →
      adminNote idp (some (.obj [("note", .str noteStr)])) actorOpt now st =
        (adminJson (errObj "Not found") 404, st) ∧
      adminUnprocess idp actorOpt now st = (adminJson (errObj "Not found") 404, st) ∧
      (mpNoteOk body →
        adminMarkProcessed idp body actorOpt now st =
          (adminJson (errObj "Not found") 404, st))) ∧
    (∀ e, e ∈ (adminNote idp body actorOpt now st).2.events →
      e ∈ st.events ∨
        (adminNote idp body actorOpt now st).2.requests.any
          (fun r => r.id == e.intakeId) = true) ∧
    (∀ e, e ∈ (adminMarkProcessed idp body actorOpt now st).2.events →
      e ∈ st.events ∨
        (adminMarkProcessed idp body actorOpt now st).2.requests.any
          (fun r => r.id == e.intakeId) = true) ∧
    (∀ e, e ∈ (adminUnprocess idp actorOpt now st).2.events →
      e ∈ st.events ∨
        (adminUnprocess idp actorOpt now st).2.requests.any
          (fun r => r.id == e.intakeId) = true) := by
  constructor
  · intro hid habs
    have hz := fun (f : Row → Row) h2 =>
      updateWhereId_zero_eq f (jsToLower (idp.getD "")) st.requests h2
    refine ⟨?_, ?_, ?_⟩
    · unfold adminNote
      try dsimp only
      rw [if_neg (by simp [hid])]
      try dsimp only
      rw [show jsProp (JVal.obj [("note", JVal.str noteStr)]) "note" =
            some (JVal.str noteStr) from rfl]
      try dsimp only
      rw [if_pos (by rw [hz _ habs]; rfl)]
    · unfold adminUnprocess
      try dsimp only
      rw [if_neg (by simp [hid])]
      try dsimp only
      rw [if_pos (by rw [hz _ habs]; rfl)]
    · intro hok
      unfold adminMarkProcessed
      try dsimp only
      rw [if_neg (by simp [hid])]
      cases body with
      | none =>
          try dsimp only
          rw [if_pos (by rw [hz _ habs]; rfl)]
      | some b =>
          unfold mpNoteOk at hok
          cases hnp : jsProp b "note" with
          | none =>
              try dsimp only
              rw [hnp]
              try dsimp only
              rw [if_pos (by rw [hz _ habs]; rfl)]
          | some j =>
              cases j with
              | str sj =>
                  try dsimp only
                  rw [hnp]
                  try dsimp only
                  rw [if_pos (by rw [hz _ habs]; rfl)]
              | null => simp [mpNoteOk, hnp] at hok
              | bool bb => simp [mpNoteOk, hnp] at hok
              | num nn => simp [mpNoteOk, hnp] at hok
              | arr xs => simp [mpNoteOk, hnp] at hok
              | obj gs => simp [mpNoteOk, hnp] at hok
  · refine ⟨?_, ?_, ?_⟩
    all_goals intro e he
    · revert he
      unfold adminNote
      try dsimp only
      repeat' split
      all_goals intro he
      all_goals try exact Or.inl he
      all_goals rcases List.mem_append.mp he with h1 | h2
      all_goals try exact Or.inl h1
      all_goals right
      all_goals rcases List.mem_singleton.mp h2 with rfl
      all_goals try dsimp only
      all_goals refine updateWhereId_any _ _ _ ?_ ?_
      all_goals try (intro r; rfl)
      all_goals intro h0
      all_goals simp_all
    · revert he
      unfold adminMarkProcessed
      try dsimp only
      repeat' split
      all_goals intro he
      all_goals try exact Or.inl he
      all_goals rcases List.mem_append.mp he with h1 | h2
      all_goals try exact Or.inl h1
      all_goals right
      all_goals rcases List.mem_singleton.mp h2 with rfl
      all_goals try dsimp only
      all_goals refine updateWhereId_any _ _ _ ?_ ?_
      all_goals try (intro r; rfl)
      all_goals intro h0
      all_goals simp_all
    · revert he
      unfold adminUnprocess
      try dsimp only
      repeat' split
      all_goals intro he
      all_goals try exact Or.inl he
      all_goals rcases List.mem_append.mp he with h1 | h2
      all_goals try exact Or.inl h1
      all_goals right
      all_goals rcases List.mem_singleton.mp h2 with rfl
      all_goals try dsimp only
      all_goals refine updateWhereId_any _ _ _ ?_ ?_
      all_goals try (intro r; rfl)
      all_goals intro h0
      all_goals simp_all

/-- Witness for C10: `unprocess` on an empty store answers the 404 and
changes nothing. -/
theorem admin_mutation_not_found_witness :
    adminUnprocess (some (String.mk (List.replicate 64 'a'))) none "t"
        { requests := [], events := [] } =
      (adminJson (errObj "Not found") 404, { requests := [], events := [] }) :=
  ((admin_mutation_not_found { requests := [], events := [] }
      (some (String.mk (List.replicate 64 'a'))) none none "t" "n").1
    (by decide) (by intro r hr; cases hr)).2.1

-- ═══════════════════════════════ claim C5 ════════════════════════════════════

/-- C5 counterexample: `?limit=0` parses to the integer 0, yet the
endpoint uses the default 50 — not the claimed clamp to at least 1 —
because JavaScript `0` is falsy in `parseInt(...) || 50`. -/
theorem limit_zero_counterexample :
    effLimit (some "0") = 50 ∧
    parseIntJS "0" = some 0 ∧
    effLimit (some "0") ≠ min (max (0 : Int) 1) 200 := by
  refine ⟨rfl, rfl, by decide⟩

/-- `${last.received_at}|${last.id}`: the cursor emitted for a row. -/
def encCursor (r : Row) : String :=
  r.receivedAt ++ "|" ++ r.id

/-- Listing page after page, feeding each `nextCursor` back, collecting
the returned rows (the claim's scenario); `fuel` bounds the number of
round trips. -/
def collectPages (limitParam : Option String) (rows : List Row) : Nat → Option String → List Row
  | 0, _ => []
  | fuel + 1, c =>
      match adminListCore limitParam c rows with
      | .error _ => []
      | .ok (items, none) => items
      | .ok (items, some c2) => items ++ collectPages limitParam rows fuel (some c2)

theorem string_mk_data (s : String) : String.mk s.data = s := by
  cases s
  rfl

theorem splitCharList_no (c : Char) (l : List Char) (h : c ∉ l) :
    splitCharList c l = [l] := by
  induction l with
  | nil => rfl
  | cons x xs ih =>
      have hxc : ¬x = c := fun he => h (by rw [← he]; exact List.mem_cons_self x xs)
      simp only [splitCharList]
      rw [if_neg hxc, ih (fun hm => h (List.mem_cons_of_mem x hm))]

theorem splitCharList_append (c : Char) (as bs : List Char) (ha : c ∉ as) :
    splitCharList c (as ++ c :: bs) = as :: splitCharList c bs := by
  induction as with
  | nil =>
      simp only [List.nil_append, splitCharList]
      simp
  | cons a as' ih =>
      have hac : ¬a = c := fun he => ha (by rw [← he]; exact List.mem_cons_self a as')
      simp only [List.cons_append, splitCharList, List.append_eq]
      rw [if_neg hac, ih (fun hm => ha (List.mem_cons_of_mem a hm))]

theorem splitOnChar_encCursor (r : Row) (ha : '|' ∉ r.receivedAt.data)
    (hb : '|' ∉ r.id.data) :
    splitOnChar '|' (encCursor r) = [r.receivedAt, r.id] := by
  unfold splitOnChar encCursor
  have hdata : (r.receivedAt ++ "|" ++ r.id).data =
      r.receivedAt.data ++ '|' :: r.id.data := by
    rw [String.data_append, String.data_append,
      show ("|" : String).data = ['|'] from by decide, List.append_assoc]
    rfl
  rw [hdata, splitCharList_append _ _ _ ha, splitCharList_no _ _ hb]
  simp [string_mk_data]

theorem keyLtP_irrefl (k : String × String) : keyLtP k k = false := by
  simp [keyLtP, lt_irrefl]

theorem keyLtP_asymm {a b : String × String} (h : keyLtP a b = true) :
    keyLtP b a = false := by
  unfold keyLtP at *
  simp only [Bool.or_eq_true, Bool.and_eq_true, decide_eq_true_eq, beq_iff_eq] at h
  simp only [Bool.or_eq_false_iff, Bool.and_eq_false_iff, decide_eq_false_iff_not, beq_eq_false_iff_ne]
  rcases h with h1 | ⟨h1, h2⟩
  · exact ⟨lt_asymm h1, Or.inl (ne_of_gt h1)⟩
  · exact ⟨by rw [h1]; exact lt_irrefl _, Or.inr (lt_asymm h2)⟩

/-- Rows strictly descending in `(received_at, id)`. -/
def sortedDesc (rows : List Row) : Prop :=
  rows.Pairwise (fun a b => keyLtP (rowKey b) (rowKey a) = true)

theorem cursorFilter_eq_keyLtP (cAt cId : String) (r : Row) :
    cursorFilter cAt cId r = keyLtP (rowKey r) (cAt, cId) := rfl

theorem filter_cursor_sorted (rows : List Row) (hs : sortedDesc rows) :
    ∀ (k : Nat) (hk : k < rows.length),
      rows.filter (fun r => keyLtP (rowKey r) (rowKey (rows.get ⟨k, hk⟩))) =
        rows.drop (k + 1) := by
  induction rows with
  | nil => intro k hk; cases hk
  | cons x t ih =>
      intro k hk
      rcases List.pairwise_cons.mp hs with ⟨hx, ht⟩
      cases k with
      | zero =>
          rw [List.filter_cons]
          rw [if_neg (by simp [keyLtP_irrefl])]
          show List.filter (fun r => keyLtP (rowKey r) (rowKey x)) t = t
          exact List.filter_eq_self.mpr (fun b hb => hx b hb)
      | succ k' =>
          rw [List.filter_cons]
          have hget : (x :: t).get ⟨k' + 1, hk⟩ = t.get ⟨k', Nat.lt_of_succ_lt_succ hk⟩ := rfl
          rw [hget]
          have hmem : t.get ⟨k', Nat.lt_of_succ_lt_succ hk⟩ ∈ t := List.get_mem t _ _
          have hxlt : keyLtP (rowKey (t.get ⟨k', Nat.lt_of_succ_lt_succ hk⟩)) (rowKey x) = true :=
            hx _ hmem
          have hxlt2 := keyLtP_asymm hxlt
          rw [if_neg (fun hc => by rw [hxlt2] at hc; cases hc)]
          exact ih ht k' (Nat.lt_of_succ_lt_succ hk)

theorem sortDesc_of_sorted (rows : List Row) (hs : sortedDesc rows) :
    sortDesc rows = rows := by
  induction rows with
  | nil => rfl
  | cons x t ih =>
      rcases List.pairwise_cons.mp hs with ⟨hx, ht⟩
      show insertDesc x (sortDesc t) = x :: t
      rw [ih ht]
      cases t with
      | nil => rfl
      | cons y u =>
          show (if keyLtP (rowKey y) (rowKey x) then x :: y :: u else y :: insertDesc x u) = _
          rw [if_pos (hx y (List.mem_cons_self y u))]

theorem hex64_facts (s : String) (h : isHex64 s = true) : s ≠ "" ∧ '|' ∉ s.data := by
  unfold isHex64 at h
  simp only [Bool.and_eq_true, beq_iff_eq, List.all_eq_true] at h
  constructor
  · intro he
    rw [he] at h
    cases h.1
  · intro hmem
    have := h.2 '|' hmem
    exact absurd this (by decide)

theorem effLimit_bounds (q : Option String) :
    1 ≤ effLimit q ∧ effLimit q ≤ 200 := by
  unfold effLimit
  dsimp only
  omega

theorem effLimit_toNat_pos (q : Option String) : 1 ≤ (effLimit q).toNat := by
  have := (effLimit_bounds q).1
  omega

theorem listQuery_eval (rows : List Row) (hs : sortedDesc rows) (k : Nat)
    (hk : k < rows.length) (n : Nat) :
    listQueryRows rows
        (some ((rows.get ⟨k, hk⟩).receivedAt, (rows.get ⟨k, hk⟩).id)) n =
      (rows.drop (k + 1)).take n := by
  unfold listQueryRows
  dsimp only
  have hfil : rows.filter
      (cursorFilter (rows.get ⟨k, hk⟩).receivedAt (rows.get ⟨k, hk⟩).id) =
      rows.drop (k + 1) := filter_cursor_sorted rows hs k hk
  rw [hfil, sortDesc_of_sorted _ (List.Pairwise.sublist (List.drop_sublist _ _) hs)]

theorem encCursor_data (r : Row) :
    (encCursor r).data = r.receivedAt.data ++ '|' :: r.id.data := by
  unfold encCursor
  rw [String.data_append, String.data_append,
    show ("|" : String).data = ['|'] from by decide, List.append_assoc]
  rfl

theorem adminListCore_cursor_eval (limitParam : Option String) (rows : List Row)
    (r : Row) (hrane : r.receivedAt ≠ "") (hrb : '|' ∉ r.receivedAt.data)
    (hid : isHex64 r.id = true) :
    adminListCore limitParam (some (encCursor r)) rows =
      (let limit := (effLimit limitParam).toNat
       let fetched := listQueryRows rows (some (r.receivedAt, r.id)) (limit + 1)
       if fetched.length > limit then
         match (fetched.take limit).getLast? with
         | some last => .ok (fetched.take limit, some (encCursor last))
         | none => .ok (fetched.take limit, none)
       else .ok (fetched, none)) := by
  obtain ⟨hidne, hidnb⟩ := hex64_facts _ hid
  have hnf : strFalsy (some (encCursor r)) = false := by
    unfold strFalsy strEmpty
    dsimp only [Option.getD]
    rw [encCursor_data]
    simp
  have h1 : strEmpty r.receivedAt = false := (strEmpty_false_iff _).mpr hrane
  have h2 : strEmpty r.id = false := (strEmpty_false_iff _).mpr hidne
  unfold adminListCore
  dsimp only
  rw [if_neg (by simp [hnf])]
  simp only [Option.getD]
  rw [splitOnChar_encCursor r hrb hidnb]
  dsimp only
  rw [if_neg (by simp [h1, h2])]
  rfl

theorem collectPages_from (limitParam : Option String) (rows : List Row)
    (hs : sortedDesc rows)
    (hwf : ∀ r ∈ rows, r.receivedAt ≠ "" ∧ '|' ∉ r.receivedAt.data ∧ isHex64 r.id = true) :
    ∀ (fuel k : Nat) (hk : k < rows.length), rows.length - k ≤ fuel →
      collectPages limitParam rows fuel (some (encCursor (rows.get ⟨k, hk⟩))) =
        rows.drop (k + 1) := by
  intro fuel
  induction fuel with
  | zero =>
      intro k hk hf
      exfalso
      omega
  | succ fuel ih =>
      intro k hk hf
      obtain ⟨hra, hrb, hid⟩ := hwf _ (List.get_mem rows k hk)
      unfold collectPages
      rw [adminListCore_cursor_eval limitParam rows _ hra hrb hid]
      dsimp only
      rw [listQuery_eval rows hs k hk]
      have hlim1 : 1 ≤ (effLimit limitParam).toNat := effLimit_toNat_pos limitParam
      have hsuflen : (rows.drop (k + 1)).length = rows.length - (k + 1) :=
        List.length_drop _ _
      by_cases hbig : (effLimit limitParam).toNat < (rows.drop (k + 1)).length
      · have hfl : ((rows.drop (k + 1)).take ((effLimit limitParam).toNat + 1)).length =
            (effLimit limitParam).toNat + 1 := by
          rw [List.length_take]
          omega
        rw [if_pos (by rw [hfl]; omega)]
        have htr : ((rows.drop (k + 1)).take ((effLimit limitParam).toNat + 1)).take
            ((effLimit limitParam).toNat) =
            (rows.drop (k + 1)).take ((effLimit limitParam).toNat) := by
          rw [List.take_take]
          congr 1
          omega
        rw [htr]
        have hlast : ((rows.drop (k + 1)).take ((effLimit limitParam).toNat)).getLast? =
            some (rows.get ⟨k + (effLimit limitParam).toNat, by omega⟩) := by
          rw [List.getLast?_eq_getElem?]
          have hlt : ((rows.drop (k + 1)).take ((effLimit limitParam).toNat)).length =
              (effLimit limitParam).toNat := by
            rw [List.length_take]
            omega
          rw [hlt, List.getElem?_take, if_pos (by omega), List.getElem?_drop]
          have hidx : k + 1 + ((effLimit limitParam).toNat - 1) =
              k + (effLimit limitParam).toNat := by omega
          rw [hidx, List.getElem?_eq_getElem (by omega), List.get_eq_getElem]
        rw [hlast]
        dsimp only
        rw [ih (k + (effLimit limitParam).toNat) (by omega) (by omega)]
        have hdd : rows.drop (k + (effLimit limitParam).toNat + 1) =
            (rows.drop (k + 1)).drop ((effLimit limitParam).toNat) := by
          rw [List.drop_drop]
          congr 1
          omega
        rw [hdd, List.take_append_drop]
      · have htk : (rows.drop (k + 1)).take ((effLimit limitParam).toNat + 1) =
            rows.drop (k + 1) := List.take_of_length_le (by omega)
        rw [htk, if_neg (by omega)]

/-- C5 (amended): the effective page size is `parseInt(limit||"50")||50`
clamped to `[1, 200]` — so `0` (and any unparsable or empty value)
falls back to 50 rather than clamping to 1 — and, for any stored set of
rows (strictly ordered by `(received_at DESC, id DESC)`, the primary
key making the order total), walking the pages cursor after cursor
returns every row exactly once: the concatenation of the pages is the
full sorted table, with no overlap and no gap, ties on `received_at`
included. -/
theorem pagination_partition (limitParam : Option String) (rows : List Row) (fuel : Nat)
    (hs : sortedDesc rows)
    (hwf : ∀ r ∈ rows, r.receivedAt ≠ "" ∧ '|' ∉ r.receivedAt.data ∧ isHex64 r.id = true)
    (hfuel : rows.length + 1 ≤ fuel) :
    (effLimit none = 50 ∧ effLimit (some "") = 50 ∧
     (∀ s, parseIntJS s = none → effLimit (some s) = 50) ∧
     (∀ s, parseIntJS s = some 0 → effLimit (some s) = 50) ∧
     (∀ s n, parseIntJS s = some n → n ≠ 0 → s ≠ "" →
        effLimit (some s) = min (max n 1) 200) ∧
     1 ≤ effLimit limitParam ∧ effLimit limitParam ≤ 200) ∧
    collectPages limitParam rows fuel none = rows := by
  constructor
  · refine ⟨rfl, rfl, ?_, ?_, ?_, effLimit_bounds limitParam⟩
    · intro s h
      unfold effLimit
      dsimp only
      by_cases hse : strEmpty s = true
      · have hse2 : strFalsy (some s) = true := hse
        rw [if_pos hse2]
        decide
      · have hse2 : ¬strFalsy (some s) = true := hse
        rw [if_neg hse2]
        simp only [Option.getD]
        rw [h]
        decide
    · intro s h
      unfold effLimit
      dsimp only
      by_cases hse : strEmpty s = true
      · have hse2 : strFalsy (some s) = true := hse
        rw [if_pos hse2]
        decide
      · have hse2 : ¬strFalsy (some s) = true := hse
        rw [if_neg hse2]
        simp only [Option.getD]
        rw [h]
        decide
    · intro s n h hn hne
      have hse : strEmpty s = false := (strEmpty_false_iff s).mpr hne
      have hse2 : ¬strFalsy (some s) = true := by
        show ¬strEmpty s = true
        simp [hse]
      unfold effLimit
      dsimp only
      rw [if_neg hse2]
      simp only [Option.getD]
      rw [h]
      cases n with
      | ofNat m =>
          cases m with
          | zero => exact absurd rfl hn
          | succ m2 => rfl
      | negSucc m => rfl
  · cases fuel with
    | zero => omega
    | succ f =>
        unfold collectPages
        show (match adminListCore limitParam none rows with
          | .error _ => []
          | .ok (items, none) => items
          | .ok (items, some c2) => items ++ collectPages limitParam rows f (some c2)) = rows
        unfold adminListCore
        dsimp only
        rw [if_pos (show strFalsy none = true from rfl)]
        dsimp only
        unfold listQueryRows
        dsimp only
        rw [sortDesc_of_sorted rows hs]
        have hlim1 : 1 ≤ (effLimit limitParam).toNat := effLimit_toNat_pos limitParam
        by_cases hbig : (effLimit limitParam).toNat < rows.length
        · have hfl : (rows.take ((effLimit limitParam).toNat + 1)).length =
              (effLimit limitParam).toNat + 1 := by
            rw [List.length_take]
            omega
          rw [if_pos (by rw [hfl]; omega)]
          have htr : (rows.take ((effLimit limitParam).toNat + 1)).take
              ((effLimit limitParam).toNat) = rows.take ((effLimit limitParam).toNat) := by
            rw [List.take_take]
            congr 1
            omega
          rw [htr]
          have hlast : (rows.take ((effLimit limitParam).toNat)).getLast? =
              some (rows.get ⟨(effLimit limitParam).toNat - 1, by omega⟩) := by
            rw [List.getLast?_eq_getElem?]
            have hlt : (rows.take ((effLimit limitParam).toNat)).length =
                (effLimit limitParam).toNat := by
              rw [List.length_take]
              omega
            rw [hlt, List.getElem?_take, if_pos (by omega),
              List.getElem?_eq_getElem (by omega), List.get_eq_getElem]
          rw [hlast]
          dsimp only
          have hencg : ∀ (r : Row), r.receivedAt ++ "|" ++ r.id = encCursor r := fun r => rfl
          rw [hencg]
          rw [collectPages_from limitParam rows hs hwf f ((effLimit limitParam).toNat - 1)
            (by omega) (by omega)]
          have hix : (effLimit limitParam).toNat - 1 + 1 = (effLimit limitParam).toNat := by
            omega
          rw [hix, List.take_append_drop]
        · have htk : rows.take ((effLimit limitParam).toNat + 1) = rows :=
            List.take_of_length_le (by omega)
          rw [htk, if_neg (by omega)]

def pagRows : List Row :=
  [{ id := String.mk (List.replicate 64 'c'), v := "v", encryptedJson := "e",
     receivedAt := "t2" },
   { id := String.mk (List.replicate 64 'b'), v := "v", encryptedJson := "e",
     receivedAt := "t1" },
   { id := String.mk (List.replicate 64 'a'), v := "v", encryptedJson := "e",
     receivedAt := "t1" }]

theorem pagination_partition_witness :
    effLimit (some "0") = 50 ∧ collectPages (some "2") pagRows 4 none = pagRows := by
  have hlt12 : ("t1" : String) < "t2" := String.lt_iff_toList_lt.mpr (by decide)
  have hnlt : ¬(("t1" : String) < "t1") := lt_irrefl _
  have hltab : String.mk (List.replicate 64 'a') < String.mk (List.replicate 64 'b') :=
    String.lt_iff_toList_lt.mpr (by decide)
  have hs : sortedDesc pagRows := by
    unfold sortedDesc pagRows
    refine List.Pairwise.cons ?_ (List.Pairwise.cons ?_
      (List.Pairwise.cons (by intro b hb; simp at hb) List.Pairwise.nil))
    · intro b hb
      simp only [List.mem_cons, List.not_mem_nil, or_false] at hb
      rcases hb with rfl | rfl
      · simp [keyLtP, rowKey, hlt12]
      · simp [keyLtP, rowKey, hlt12]
    · intro b hb
      simp only [List.mem_cons, List.not_mem_nil, or_false] at hb
      subst hb
      simp [keyLtP, rowKey, hnlt, hltab]
      decide
  have h := pagination_partition (some "2") pagRows 4 hs (by decide) (by decide)
  exact ⟨h.1.2.2.2.1 "0" (by decide), h.2⟩
